/-
Verification of the mnemosyne log manager (usermode/library/mnemosyne/src/log/mgr.c).

Shallow embedding: the persistent slot pool, the log-type registry, the recovery
scheduler and the slot allocator are translated into executable Lean functions.
Descriptors live in a volatile array (`dscs`), the intrusive linked lists become
lists of descriptor indices, and every externally visible action (callback
invocation, registry scan, persistent store, barrier) is recorded in an event
trace.  The log-type callbacks themselves (m_log_ops_t, declared in log.h, which
is not part of the excerpted source) are modelled from the spec, see the doc
comments on the corresponding definitions.
-/
import Mathlib

/-- Number of slots in the log pool (`#define LOG_NUM 32` in mgr.c). -/
def LOG_NUM : Nat := 32

/-- Modelled from the spec: `LF_TYPE_MASK` lives in log.h (not under src/).  The
spec says the low bits of `generic_flags` carry the type tag; we fix a 16-bit
tag field. -/
def LF_TYPE_MASK : Nat := 65535

/-- Modelled from the spec: tag value `FREE` ("tag 0 = FREE" in the spec's
external-interface section); constant from log.h (not under src/). -/
def LF_TYPE_FREE : Nat := 0

/-- Modelled from the spec: number of compile-time-known log types, from
staticlogs.h (not under src/).  The static ops table in mgr.c contains only
`NULL_LOG_OPS` entries, so we model a configuration with no built-in types:
the registration loop `for (i=1; i<LF_TYPE_VALIDVALUES; i++)` is empty. -/
def LF_TYPE_VALIDVALUES : Nat := 1

/-- The type tag stored in the low bits of a metadata record's `generic_flags`:
`generic_flags & LF_TYPE_MASK` (with the mask being the low 16 bits, `&` is
`% 2^16`). -/
def tagOf (flags : Nat) : Nat := flags % (LF_TYPE_MASK + 1)

/-- The flags word written by the allocator:
`(generic_flags & ~LF_TYPE_MASK) | type` (for an in-range type id `| type`
coincides with adding `type % 2^16` onto the cleared low bits). -/
def setTagBits (flags ty : Nat) : Nat :=
  (flags / (LF_TYPE_MASK + 1)) * (LF_TYPE_MASK + 1) + ty % (LF_TYPE_MASK + 1)

/-- Modelled from the spec: result codes of `m_result_t` from result.h (not
under src/); mgr.c uses exactly these three constants. -/
inductive m_result_t where
  | M_R_SUCCESS : m_result_t
  | M_R_FAILURE : m_result_t
  | M_R_NOMEMORY : m_result_t
  deriving DecidableEq, Repr

open m_result_t

/-- Modelled from the spec: the volatile log object (`m_log_t`, declared in
log.h, not under src/).  The manager only ever creates it via `ops.alloc` and
initializes it via `ops.init`; one flag suffices to observe that protocol. -/
structure m_log_s where
  initialized : Bool
  deriving DecidableEq, Repr

/-- The capability set of a log type (`m_log_ops_t` from log.h, not under
src/).  mgr.c only ever tests the function pointers for NULL and invokes them,
so each field records whether the corresponding callback is present. -/
structure m_log_ops_s where
  alloc : Bool
  init : Bool
  recovery_init : Bool
  recovery_do : Bool
  recovery_prepare_next : Bool
  deriving DecidableEq, Repr

/-- A log descriptor (`m_log_dsc_t`): the volatile handle of one slot.
`nvmd_generic_flags` is the slot's persistent metadata word (`nvmd->generic_flags`).
`recSteps` is modelled from the spec: it is the sequence of recovery order
numbers that the slot's persisted log content will make the recovery callbacks
produce ("a log-specific sequence number" assigned by `recovery_init` /
`recovery_prepare_next`). -/
structure m_log_dsc_s where
  nvmd_generic_flags : Nat
  log : Option m_log_s
  ops : Option m_log_ops_s
  logorder : Option Nat
  recSteps : List Nat
  deriving DecidableEq, Repr

/-- The sentinel `INV_LOG_ORDER` from log.h (not under src/) is represented by
`none`: a descriptor whose recovery order is "invalid/none". -/
def INV_LOG_ORDER : Option Nat := none

/-- A registry entry (`m_logtype_entry_t` in mgr.c). -/
structure m_logtype_entry_s where
  type : Nat
  ops : m_log_ops_s
  deriving DecidableEq, Repr

/-- The persisted content of one slot, as read at pool bring-up: its metadata
flags word and (modelled from the spec) the recovery-order script induced by the
slot's log content. -/
structure SlotNV where
  generic_flags : Nat
  recScript : List Nat
  deriving DecidableEq, Repr

/-- The log manager (`m_logmgr_t`): the registry and the descriptor lists.  The
intrusive lists hold descriptor indices into `dscs`. -/
structure m_logmgr_s where
  known_logtypes_list : List m_logtype_entry_s
  free_logs_list : List Nat
  active_logs_list : List Nat
  pending_logs_list : List Nat
  dscs : List m_log_dsc_s
  deriving DecidableEq, Repr

/-- Observable actions of the log manager: callback invocations on a descriptor
index, a registry scan for a type, and the persistent-store-with-barrier pair
issued on a slot's metadata word. -/
inductive LogEvent where
  | allocCb : Nat → LogEvent
  | initCb : Nat → LogEvent
  | recoveryInitCb : Nat → LogEvent
  | recoveryDoCb : Nat → LogEvent
  | recoveryPrepareNextCb : Nat → LogEvent
  | registryLookup : Nat → LogEvent
  | pcmStoreTag : Nat → Nat → LogEvent
  | pcmBarrier : LogEvent
  deriving DecidableEq, Repr

/-- The descriptor read through a dangling index (out of range of `dscs`); its
`logorder` is `none` so it can never be selected for recovery. -/
def defaultDsc : m_log_dsc_s :=
  { nvmd_generic_flags := 0, log := none, ops := none, logorder := none, recSteps := [] }

def getDsc (dscs : List m_log_dsc_s) (i : Nat) : m_log_dsc_s :=
  dscs.getD i defaultDsc

def setDsc (dscs : List m_log_dsc_s) (i : Nat) (d : m_log_dsc_s) : List m_log_dsc_s :=
  dscs.set i d

/-- Modelled from the spec: the effect of `ops.alloc` on a descriptor — "bind /
construct the volatile log object for a descriptor".  mgr.c asserts the
callback returns `M_R_SUCCESS`. -/
def applyAllocCb (d : m_log_dsc_s) : m_log_dsc_s :=
  { d with log := some { initialized := false } }

/-- Modelled from the spec: the effect of `ops.init` — "initialize the volatile
log object for active use". -/
def applyInitCb (d : m_log_dsc_s) : m_log_dsc_s :=
  { d with log := d.log.map (fun L => { L with initialized := true }) }

/-- Modelled from the spec: the shared effect of `ops.recovery_init` (which
"may assign an initial recovery order") and `ops.recovery_prepare_next` (which
"advances the slot's recovery order, or ... sets the order to none"): consume
the next order of the slot's script, `none` once the script is exhausted. -/
def advanceOrder (d : m_log_dsc_s) : m_log_dsc_s :=
  { d with logorder := d.recSteps.head?, recSteps := d.recSteps.tail }

/-- The test `log_dsc->ops && log_dsc->ops->recovery_init` of do_recovery's
collection phase. -/
def hasRecInit (d : m_log_dsc_s) : Bool :=
  match d.ops with
  | some o => o.recovery_init
  | none => false

/-- The asserts `ops && ops->recovery_do && ops->recovery_prepare_next` of
do_recovery's ordering loop. -/
def hasRecDoPrep (d : m_log_dsc_s) : Bool :=
  match d.ops with
  | some o => o.recovery_do && o.recovery_prepare_next
  | none => false

/-- One iteration `i` of create_log_pool's descriptor loop: build the
descriptor (no log object, no ops, order = INV_LOG_ORDER) and classify it by
its persisted tag — `LF_TYPE_FREE` goes to the free list, anything else to the
pending list (both via `list_add_tail`). -/
def mkDsc (s : SlotNV) : m_log_dsc_s :=
  { nvmd_generic_flags := s.generic_flags, log := none, ops := none,
    logorder := INV_LOG_ORDER, recSteps := s.recScript }

def create_log_pool_loop : m_logmgr_s → Nat → List SlotNV → m_logmgr_s
  | mgr, _, [] => mgr
  | mgr, i, s :: rest =>
    let mgr' :=
      if tagOf s.generic_flags = LF_TYPE_FREE then
        { mgr with dscs := mgr.dscs ++ [mkDsc s],
                   free_logs_list := mgr.free_logs_list ++ [i] }
      else
        { mgr with dscs := mgr.dscs ++ [mkDsc s],
                   pending_logs_list := mgr.pending_logs_list ++ [i] }
    create_log_pool_loop mgr' (i + 1) rest

/-- create_log_pool (mgr.c lines 102-123): read the non-volatile metadata of the
`LOG_NUM` slots and build one descriptor per slot.  (The pool mapping and the
`PCM_STORE(&log_pool, ...)` publication, lines 76-93, involve only the external
segment collaborator and are not needed by any claim.) -/
def create_log_pool (mgr : m_logmgr_s) (pool : List SlotNV) : m_logmgr_s :=
  create_log_pool_loop mgr 0 (pool.take LOG_NUM)

/-- The scan of the pending list performed by register_logtype after inserting
the entry: every pending descriptor whose persisted tag equals `ty` receives
the ops table and has `ops.alloc` invoked on it (the C code asserts the call's
success; invoking an absent callback is the NULL-pointer call, `none`). -/
def register_pending_scan (ty : Nat) (ops : m_log_ops_s) :
    List m_log_dsc_s → List Nat → Option (List m_log_dsc_s × List LogEvent)
  | dscs, [] => some (dscs, [])
  | dscs, i :: rest =>
    let d := getDsc dscs i
    if tagOf d.nvmd_generic_flags = ty then
      if ops.alloc then
        match register_pending_scan ty ops (setDsc dscs i (applyAllocCb { d with ops := some ops })) rest with
        | some (dscsF, evs) => some (dscsF, LogEvent.allocCb i :: evs)
        | none => none
      else none
    else register_pending_scan ty ops dscs rest

/-- register_logtype (mgr.c lines 197-238).  The `lock` parameter only guards
the manager mutex and has no sequential effect; `malloc` failure (M_R_NOMEMORY)
is not modelled.  Returns the result code, the new manager state and the event
trace; `none` is the fatal assert path. -/
def register_logtype (mgr : m_logmgr_s) (ty : Nat) (ops : m_log_ops_s) :
    Option (m_result_t × m_logmgr_s × List LogEvent) :=
  if mgr.known_logtypes_list.any (fun e => e.type == ty) then
    some (M_R_SUCCESS, mgr, [])
  else
    let mgr1 := { mgr with known_logtypes_list :=
                    mgr.known_logtypes_list ++ [({ type := ty, ops := ops } : m_logtype_entry_s)] }
    match register_pending_scan ty ops mgr1.dscs mgr1.pending_logs_list with
    | some (dscs', evs) => some (M_R_SUCCESS, { mgr1 with dscs := dscs' }, evs)
    | none => none

/-- register_static_logtypes (mgr.c lines 241-252): register the ops of every
compile-time-known type, i in 1..LF_TYPE_VALIDVALUES-1, without locking.  The
static table holds only `NULL_LOG_OPS`. -/
def static_log_ops : m_log_ops_s :=
  { alloc := false, init := false, recovery_init := false,
    recovery_do := false, recovery_prepare_next := false }

def register_static_loop : m_logmgr_s → List Nat → Option m_logmgr_s
  | mgr, [] => some mgr
  | mgr, t :: rest =>
    match register_logtype mgr t static_log_ops with
    | some (_, mgr', _) => register_static_loop mgr' rest
    | none => none

def register_static_logtypes (mgr : m_logmgr_s) : Option m_logmgr_s :=
  register_static_loop mgr ((List.range LF_TYPE_VALIDVALUES).drop 1)

/-- The collection phase of do_recovery (mgr.c lines 285-292): scan the pending
list (`list_for_each_entry_safe`); every descriptor with ops and a
`recovery_init` callback has `recovery_init` invoked on it and is moved from
the pending list onto the transient `recovery_list` (`list_add` prepends, so
the transient list ends up in reverse scan order).  Returns the remaining
pending list, the recovery list, the updated descriptors and the events. -/
def collect_phase : List m_log_dsc_s → List Nat →
    List Nat × List Nat × List m_log_dsc_s × List LogEvent
  | dscs, [] => ([], [], dscs, [])
  | dscs, i :: rest =>
    let d := getDsc dscs i
    if hasRecInit d then
      let out := collect_phase (setDsc dscs i (advanceOrder d)) rest
      (out.1, out.2.1 ++ [i], out.2.2.1, LogEvent.recoveryInitCb i :: out.2.2.2)
    else
      let out := collect_phase dscs rest
      (i :: out.1, out.2.1, out.2.2.1, out.2.2.2)

/-- The selection scan of do_recovery's ordering loop (mgr.c lines 299-313):
walk the recovery list, skip descriptors whose order is INV_LOG_ORDER, and keep
the first descriptor seen with the numerically smallest order (the candidate is
replaced only on a strictly smaller order).  `cur` carries the candidate
together with the order it was selected at. -/
def pick_loop (dscs : List m_log_dsc_s) : Option (Nat × Nat) → List Nat → Option (Nat × Nat)
  | cur, [] => cur
  | cur, i :: rest =>
    match (getDsc dscs i).logorder with
    | none => pick_loop dscs cur rest
    | some o =>
      match cur with
      | none => pick_loop dscs (some (i, o)) rest
      | some (j, oj) =>
        if oj > o then pick_loop dscs (some (i, o)) rest
        else pick_loop dscs (some (j, oj)) rest

/-- Remaining recovery work of one descriptor: one pending `recovery_do` if its
order is set, plus the unconsumed script. -/
def stepsLeft (d : m_log_dsc_s) : Nat :=
  (if d.logorder.isSome then 1 else 0) + d.recSteps.length

/-- Total remaining recovery work of the recovery list: a strict upper bound on
the number of iterations the ordering loop still performs. -/
def recMeasure (dscs : List m_log_dsc_s) (l : List Nat) : Nat :=
  (l.map (fun i => stepsLeft (getDsc dscs i))).sum

/-- The ordering loop of do_recovery (mgr.c lines 298-321), with explicit fuel.
Each iteration scans for the descriptor with the smallest non-INV order; if one
is found the code asserts its `recovery_do` / `recovery_prepare_next` callbacks
are present (`some none` is the fatal assert path), invokes them in that order,
and repeats; the loop exits when no descriptor qualifies.  The outer `none` is
fuel exhaustion, which `recovery_loop_fuel_sufficient` below proves unreachable
for fuel above `recMeasure`. -/
def recovery_loop_fuel : Nat → List m_log_dsc_s → List Nat →
    Option (Option (List m_log_dsc_s × List LogEvent))
  | 0, _, _ => none
  | n + 1, dscs, l =>
    match pick_loop dscs none l with
    | none => some (some (dscs, []))
    | some (i, _) =>
      if hasRecDoPrep (getDsc dscs i) then
        match recovery_loop_fuel n (setDsc dscs i (advanceOrder (getDsc dscs i))) l with
        | some (some (dscsF, evs)) =>
          some (some (dscsF, LogEvent.recoveryDoCb i :: LogEvent.recoveryPrepareNextCb i :: evs))
        | some none => some none
        | none => none
      else some none

/-- The ordering loop with exactly enough fuel; `none` is the fatal assert
path. -/
def recovery_loop (dscs : List m_log_dsc_s) (l : List Nat) :
    Option (List m_log_dsc_s × List LogEvent) :=
  (recovery_loop_fuel (recMeasure dscs l + 1) dscs l).join

/-- do_recovery (mgr.c lines 269-327): collection phase, ordering loop, then
`list_splice(&recovery_list, &free_logs_list)`, which makes the recovered
descriptors available for reuse by inserting the transient list at the front of
the free list. -/
def do_recovery (mgr : m_logmgr_s) : Option (m_result_t × m_logmgr_s × List LogEvent) :=
  let out := collect_phase mgr.dscs mgr.pending_logs_list
  match recovery_loop out.2.2.1 out.2.1 with
  | none => none
  | some (dscs2, evs2) =>
    some (M_R_SUCCESS,
          { mgr with dscs := dscs2,
                     pending_logs_list := out.1,
                     free_logs_list := out.2.1 ++ mgr.free_logs_list },
          out.2.2.2 ++ evs2)

/-- The free-list scan of m_logmgr_alloc_log (mgr.c lines 350-361): one pass
that records the first descriptor whose persisted tag equals the requested
type (`free_log_dsc`) and, independently, the first whose tag is LF_TYPE_FREE
(`free_log_dsc_notype`). -/
def scan_free_loop (dscs : List m_log_dsc_s) (ty : Nat) :
    Option Nat × Option Nat → List Nat → Option Nat × Option Nat
  | acc, [] => acc
  | (fm, ff), i :: rest =>
    let d := getDsc dscs i
    let fm' := if tagOf d.nvmd_generic_flags = ty ∧ fm = none then some i else fm
    let ff' := if tagOf d.nvmd_generic_flags = LF_TYPE_FREE ∧ ff = none then some i else ff
    scan_free_loop dscs ty (fm', ff') rest

/-- The registry scan of m_logmgr_alloc_log (lines 367-373): first entry whose
type matches, if any (`break` stops at the first). -/
def known_find : List m_logtype_entry_s → Nat → Option m_log_ops_s
  | [], _ => none
  | e :: rest, ty => if e.type = ty then some e.ops else known_find rest ty

/-- The tail of m_logmgr_alloc_log (lines 389-400) once a descriptor `i` is
selected: `list_del_init` takes it off the free list, `list_add_tail` appends
it to the active list; the code asserts ops and `ops.init` are present, invokes
`init` on the volatile log object, and finally publishes the new type tag with
`PCM_STORE(&nvmd->generic_flags, (generic_flags & ~LF_TYPE_MASK) | type)`
followed by `PCM_BARRIER`. -/
def alloc_finish (mgr : m_logmgr_s) (ty : Nat) (i : Nat) (evs : List LogEvent) :
    Option (m_result_t × m_logmgr_s × Option Nat × List LogEvent) :=
  let mgr1 := { mgr with free_logs_list := mgr.free_logs_list.erase i,
                         active_logs_list := mgr.active_logs_list ++ [i] }
  let d := getDsc mgr1.dscs i
  match d.ops with
  | none => none
  | some ops =>
    if ops.init then
      let d1 := applyInitCb d
      let newflags := setTagBits d1.nvmd_generic_flags ty
      let d2 := { d1 with nvmd_generic_flags := newflags }
      some (M_R_SUCCESS,
            { mgr1 with dscs := setDsc mgr1.dscs i d2 },
            some i,
            evs ++ [LogEvent.initCb i, LogEvent.pcmStoreTag i newflags, LogEvent.pcmBarrier])
    else none

/-- The body of m_logmgr_alloc_log (mgr.c lines 340-404) run against a manager
state: scan the free list, prefer a descriptor of the same type, otherwise
bind an untyped (LF_TYPE_FREE) descriptor by registry lookup + `ops.alloc`;
`!log_dsc->ops` after a failed lookup is the unknown-type failure; an empty
scan is the no-free-slot failure.  The third component of a successful result
is the descriptor index written through `log_dscp`. -/
def alloc_log_body (mgr : m_logmgr_s) (ty : Nat) :
    Option (m_result_t × m_logmgr_s × Option Nat × List LogEvent) :=
  match scan_free_loop mgr.dscs ty (none, none) mgr.free_logs_list with
  | (some i, _) => alloc_finish mgr ty i []
  | (none, some i) =>
    let evs := [LogEvent.registryLookup ty]
    match known_find mgr.known_logtypes_list ty with
    | some ops =>
      let d := getDsc mgr.dscs i
      if ops.alloc then
        let mgr1 := { mgr with dscs := setDsc mgr.dscs i (applyAllocCb { d with ops := some ops }) }
        alloc_finish mgr1 ty i (evs ++ [LogEvent.allocCb i])
      else none
    | none =>
      if (getDsc mgr.dscs i).ops.isNone then some (M_R_FAILURE, mgr, none, evs)
      else alloc_finish mgr ty i evs
  | (none, none) => some (M_R_FAILURE, mgr, none, [])

/-- logmgr_init (mgr.c lines 132-173), sequentially: create the pool
descriptors, register the static log types, run recovery.  The mutex, the
`logmgr_initialized` flag and the publication of the `logmgr` pointer order
writes for concurrent observers and have no sequential effect;
`m_logtrunc_init` belongs to the external truncation subsystem.
`emptyLogMgr` is the freshly malloc'd manager with its four lists
INIT_LIST_HEAD-initialized. -/
def emptyLogMgr : m_logmgr_s :=
  { known_logtypes_list := [], free_logs_list := [], active_logs_list := [],
    pending_logs_list := [], dscs := [] }

def logmgr_init (pool : List SlotNV) : Option m_logmgr_s :=
  let mgr1 := create_log_pool emptyLogMgr pool
  match register_static_logtypes mgr1 with
  | none => none
  | some mgr2 =>
    match do_recovery mgr2 with
    | none => none
    | some (_, mgr3, _) => some mgr3

/-- m_logmgr_init (mgr.c lines 176-180). -/
def m_logmgr_init (pool : List SlotNV) : Option m_logmgr_s :=
  logmgr_init pool

/-- m_logmgr_register_logtype (mgr.c lines 255-262): the only client-facing
entry point that lazily initializes the absent manager (`if (!logmgr)
logmgr_init();`) before operating on it.  `global` is the current value of the
`logmgr` pointer (`none` = NULL) and `pool` the persisted pool contents the
lazy initialization would read. -/
def m_logmgr_register_logtype (global : Option m_logmgr_s) (pool : List SlotNV)
    (ty : Nat) (ops : m_log_ops_s) : Option (m_result_t × m_logmgr_s × List LogEvent) :=
  match global with
  | none =>
    match logmgr_init pool with
    | some mgr => register_logtype mgr ty ops
    | none => none
  | some mgr => register_logtype mgr ty ops

/-- m_logmgr_do_recovery (mgr.c lines 330-334): `return do_recovery(logmgr);`
with no NULL check — called with `logmgr == NULL` it dereferences the absent
manager, modelled as `none`. -/
def m_logmgr_do_recovery (global : Option m_logmgr_s) :
    Option (m_result_t × m_logmgr_s × List LogEvent) :=
  match global with
  | none => none
  | some mgr => do_recovery mgr

/-- m_logmgr_alloc_log (mgr.c lines 340-404): dereferences `logmgr` directly
(`logmgr->free_logs_list`) with no NULL check, modelled as `none` when the
manager is absent. -/
def m_logmgr_alloc_log (global : Option m_logmgr_s) (ty : Nat) :
    Option (m_result_t × m_logmgr_s × Option Nat × List LogEvent) :=
  match global with
  | none => none
  | some mgr => alloc_log_body mgr ty

/-- Manager states reachable by pool bring-up followed by any sequence of type
registrations, recovery runs and allocations. -/
inductive MgrReachable : m_logmgr_s → Prop where
  | bringup (pool : List SlotNV) (mgr : m_logmgr_s) :
      logmgr_init pool = some mgr → MgrReachable mgr
  | register (mgr : m_logmgr_s) (ty : Nat) (ops : m_log_ops_s) (r : m_result_t)
      (mgr' : m_logmgr_s) (evs : List LogEvent) : MgrReachable mgr →
      register_logtype mgr ty ops = some (r, mgr', evs) → MgrReachable mgr'
  | recovery (mgr : m_logmgr_s) (r : m_result_t) (mgr' : m_logmgr_s) (evs : List LogEvent) :
      MgrReachable mgr →
      do_recovery mgr = some (r, mgr', evs) → MgrReachable mgr'
  | alloc (mgr : m_logmgr_s) (ty : Nat) (r : m_result_t) (mgr' : m_logmgr_s)
      (io : Option Nat) (evs : List LogEvent) : MgrReachable mgr →
      alloc_log_body mgr ty = some (r, mgr', io, evs) → MgrReachable mgr'

/-- The slot-partition invariant: together with a (possibly empty) transient
recovery list, the free, active and pending lists cover every slot index
exactly once. -/
def slotPartition (mgr : m_logmgr_s) (recList : List Nat) : Prop :=
  List.Perm
    (mgr.free_logs_list ++ mgr.active_logs_list ++ mgr.pending_logs_list ++ recList)
    (List.range mgr.dscs.length)

/-- The shape of the ordering loop's behaviour: at every iteration the
descriptor returned by the selection scan has `recovery_do` and then
`recovery_prepare_next` invoked on it (advancing its order), until the scan
finds no descriptor with a non-INV order. -/
inductive RecoveryTrace (l : List Nat) :
    List m_log_dsc_s → List LogEvent → List m_log_dsc_s → Prop where
  | done (dscs : List m_log_dsc_s) :
      pick_loop dscs none l = none → RecoveryTrace l dscs [] dscs
  | step (dscs : List m_log_dsc_s) (i o : Nat) (evs : List LogEvent)
      (dscsF : List m_log_dsc_s) :
      pick_loop dscs none l = some (i, o) →
      RecoveryTrace l (setDsc dscs i (advanceOrder (getDsc dscs i))) evs dscsF →
      RecoveryTrace l dscs
        (LogEvent.recoveryDoCb i :: LogEvent.recoveryPrepareNextCb i :: evs) dscsF

/-- The descriptor index an event acts on, if any: used to state that an
operation never touches a given slot. -/
def eventDsc : LogEvent → Option Nat
  | LogEvent.allocCb i => some i
  | LogEvent.initCb i => some i
  | LogEvent.recoveryInitCb i => some i
  | LogEvent.recoveryDoCb i => some i
  | LogEvent.recoveryPrepareNextCb i => some i
  | LogEvent.registryLookup _ => none
  | LogEvent.pcmStoreTag i _ => some i
  | LogEvent.pcmBarrier => none

/-- A fully capable operations table, used in the concrete scenarios below. -/
def opsFull : m_log_ops_s :=
  { alloc := true, init := true, recovery_init := true, recovery_do := true,
    recovery_prepare_next := true }

/-- Concrete scenario: a manager with one pending slot of registered type 2
holding one recovery step. -/
def wRecMgr : m_logmgr_s :=
  { known_logtypes_list := [{ type := 2, ops := opsFull }],
    free_logs_list := [], active_logs_list := [], pending_logs_list := [0],
    dscs := [{ nvmd_generic_flags := 2, log := some { initialized := false },
               ops := some opsFull, logorder := none, recSteps := [5] }] }

/-- The manager state produced by running recovery on `wRecMgr`. -/
def wRecMgrAfter : m_logmgr_s :=
  { known_logtypes_list := [{ type := 2, ops := opsFull }],
    free_logs_list := [0], active_logs_list := [], pending_logs_list := [],
    dscs := [{ nvmd_generic_flags := 2, log := some { initialized := false },
               ops := some opsFull, logorder := none, recSteps := [] }] }

/-- The events produced by running recovery on `wRecMgr`. -/
def wRecEvs : List LogEvent :=
  [LogEvent.recoveryInitCb 0, LogEvent.recoveryDoCb 0, LogEvent.recoveryPrepareNextCb 0]

/-- Concrete scenario: a manager with one pending slot whose type was never
registered (no operations table). -/
def wPendMgr : m_logmgr_s :=
  { known_logtypes_list := [], free_logs_list := [], active_logs_list := [],
    pending_logs_list := [0],
    dscs := [{ nvmd_generic_flags := 3, log := none, ops := none,
               logorder := none, recSteps := [] }] }

/-- Concrete pair of descriptors with recovery orders 4 and 2, for exercising
the selection scan. -/
def wPickDscs : List m_log_dsc_s :=
  [{ nvmd_generic_flags := 3, log := none, ops := some opsFull,
     logorder := some 4, recSteps := [] },
   { nvmd_generic_flags := 3, log := none, ops := some opsFull,
     logorder := some 2, recSteps := [] }]

/-- Concrete scenario: one free slot whose persisted tag already equals the
requested type 1. -/
def wAllocMgr : m_logmgr_s :=
  { known_logtypes_list := [{ type := 1, ops := opsFull }],
    free_logs_list := [0], active_logs_list := [], pending_logs_list := [],
    dscs := [{ nvmd_generic_flags := 1, log := some { initialized := false },
               ops := some opsFull, logorder := none, recSteps := [] }] }

/-- The manager state produced by `alloc_log_body wAllocMgr 1`. -/
def wAllocMgrAfter : m_logmgr_s :=
  { known_logtypes_list := [{ type := 1, ops := opsFull }],
    free_logs_list := [], active_logs_list := [0], pending_logs_list := [],
    dscs := [{ nvmd_generic_flags := 1, log := some { initialized := true },
               ops := some opsFull, logorder := none, recSteps := [] }] }

/-- The events produced by `alloc_log_body wAllocMgr 1`. -/
def wAllocEvs : List LogEvent :=
  [LogEvent.initCb 0, LogEvent.pcmStoreTag 0 1, LogEvent.pcmBarrier]

/-- Concrete scenario: one untyped (FREE-tagged) free slot, and type 7 is not
in the registry. -/
def wUnknownMgr : m_logmgr_s :=
  { known_logtypes_list := [{ type := 1, ops := opsFull }],
    free_logs_list := [0], active_logs_list := [], pending_logs_list := [],
    dscs := [{ nvmd_generic_flags := 0, log := none, ops := none,
               logorder := none, recSteps := [] }] }

/-- Concrete scenario: no free slot at all. -/
def wNoFreeMgr : m_logmgr_s :=
  { known_logtypes_list := [{ type := 1, ops := opsFull }],
    free_logs_list := [], active_logs_list := [], pending_logs_list := [], dscs := [] }

/-- Concrete scenario: one pending slot persisted with tag 2 and no recovery
steps; its type 2 is registered, so ops and the log object are bound. -/
def wPriorMgr : m_logmgr_s :=
  { known_logtypes_list := [{ type := 2, ops := opsFull }],
    free_logs_list := [], active_logs_list := [], pending_logs_list := [0],
    dscs := [{ nvmd_generic_flags := 2, log := some { initialized := false },
               ops := some opsFull, logorder := none, recSteps := [] }] }

/-- `wPriorMgr` after recovery: the slot sits on the free list, tag still 2. -/
def wPriorMgrRec : m_logmgr_s :=
  { known_logtypes_list := [{ type := 2, ops := opsFull }],
    free_logs_list := [0], active_logs_list := [], pending_logs_list := [],
    dscs := [{ nvmd_generic_flags := 2, log := some { initialized := false },
               ops := some opsFull, logorder := none, recSteps := [] }] }

/-- `wPriorMgrRec` with type 1 additionally registered. -/
def wPriorMgrReg : m_logmgr_s :=
  { known_logtypes_list := [{ type := 2, ops := opsFull }, { type := 1, ops := opsFull }],
    free_logs_list := [0], active_logs_list := [], pending_logs_list := [],
    dscs := [{ nvmd_generic_flags := 2, log := some { initialized := false },
               ops := some opsFull, logorder := none, recSteps := [] }] }

/-- `wPriorMgrReg` after a successful allocation of type 2 (tag match). -/
def wPriorMgrAlloc : m_logmgr_s :=
  { known_logtypes_list := [{ type := 2, ops := opsFull }, { type := 1, ops := opsFull }],
    free_logs_list := [], active_logs_list := [0], pending_logs_list := [],
    dscs := [{ nvmd_generic_flags := 2, log := some { initialized := true },
               ops := some opsFull, logorder := none, recSteps := [] }] }

/-- Concrete persisted pool contents: one FREE slot and one slot tagged 2. -/
def wPool : List SlotNV :=
  [{ generic_flags := 0, recScript := [] }, { generic_flags := 2, recScript := [] }]

/-- The manager produced by bring-up on `wPool`. -/
def wInitMgr : m_logmgr_s :=
  { known_logtypes_list := [], free_logs_list := [0], active_logs_list := [],
    pending_logs_list := [1],
    dscs := [{ nvmd_generic_flags := 0, log := none, ops := none,
               logorder := none, recSteps := [] },
             { nvmd_generic_flags := 2, log := none, ops := none,
               logorder := none, recSteps := [] }] }

theorem length_setDsc (dscs : List m_log_dsc_s) (i : Nat) (d : m_log_dsc_s) :
    (setDsc dscs i d).length = dscs.length := by
  simp [setDsc]

theorem getDsc_setDsc_self (dscs : List m_log_dsc_s) (i : Nat) (d : m_log_dsc_s)
    (h : i < dscs.length) : getDsc (setDsc dscs i d) i = d := by
  simp [getDsc, setDsc, List.getD, List.getElem?_set_self, h]

theorem getDsc_setDsc_ne (dscs : List m_log_dsc_s) (i j : Nat) (d : m_log_dsc_s)
    (h : i ≠ j) : getDsc (setDsc dscs i d) j = getDsc dscs j := by
  simp [getDsc, setDsc, List.getD, List.getElem?_set_ne h]

theorem getDsc_out_of_range (dscs : List m_log_dsc_s) (i : Nat) (h : dscs.length ≤ i) :
    getDsc dscs i = defaultDsc := by
  simp [getDsc, List.getD, List.getElem?_eq_none h]

theorem lt_length_of_logorder_some (dscs : List m_log_dsc_s) (i o : Nat)
    (h : (getDsc dscs i).logorder = some o) : i < dscs.length := by
  by_contra hn
  rw [getDsc_out_of_range dscs i (Nat.le_of_not_lt hn)] at h
  simp [defaultDsc] at h

theorem pick_loop_some_order (dscs : List m_log_dsc_s) (l : List Nat) :
    ∀ cur i o,
      (∀ j oj, cur = some (j, oj) → (getDsc dscs j).logorder = some oj) →
      pick_loop dscs cur l = some (i, o) →
      (getDsc dscs i).logorder = some o ∧ (i ∈ l ∨ cur = some (i, o)) := by
  induction l with
  | nil =>
    intro cur i o hcur h
    simp only [pick_loop] at h
    exact ⟨hcur i o h, Or.inr h⟩
  | cons a rest ih =>
    intro cur i o hcur h
    simp only [pick_loop] at h
    cases horder : (getDsc dscs a).logorder with
    | none =>
      rw [horder] at h
      rcases ih cur i o hcur h with ⟨h1, h2 | h2⟩
      · exact ⟨h1, Or.inl (List.mem_cons_of_mem a h2)⟩
      · exact ⟨h1, Or.inr h2⟩
    | some oa =>
      rw [horder] at h
      cases cur with
      | none =>
        have hcur' : ∀ j oj, (some (a, oa) : Option (Nat × Nat)) = some (j, oj) →
            (getDsc dscs j).logorder = some oj := by
          intro j oj hj
          cases hj
          exact horder
        rcases ih (some (a, oa)) i o hcur' h with ⟨h1, h2 | h2⟩
        · exact ⟨h1, Or.inl (List.mem_cons_of_mem a h2)⟩
        · cases h2
          exact ⟨h1, Or.inl (List.mem_cons_self a rest)⟩
      | some p =>
        rcases p with ⟨j, oj⟩
        dsimp only at h
        by_cases hcmp : oj > oa
        · rw [if_pos hcmp] at h
          have hcur' : ∀ j' oj', (some (a, oa) : Option (Nat × Nat)) = some (j', oj') →
              (getDsc dscs j').logorder = some oj' := by
            intro j' oj' hj
            cases hj
            exact horder
          rcases ih (some (a, oa)) i o hcur' h with ⟨h1, h2 | h2⟩
          · exact ⟨h1, Or.inl (List.mem_cons_of_mem a h2)⟩
          · cases h2
            exact ⟨h1, Or.inl (List.mem_cons_self a rest)⟩
        · rw [if_neg hcmp] at h
          rcases ih (some (j, oj)) i o hcur h with ⟨h1, h2 | h2⟩
          · exact ⟨h1, Or.inl (List.mem_cons_of_mem a h2)⟩
          · exact ⟨h1, Or.inr h2⟩

theorem pick_loop_min (dscs : List m_log_dsc_s) (l : List Nat) :
    ∀ cur i o, pick_loop dscs cur l = some (i, o) →
      (∀ j ∈ l, ∀ oj, (getDsc dscs j).logorder = some oj → o ≤ oj) ∧
      (∀ jc oc, cur = some (jc, oc) → o ≤ oc) := by
  induction l with
  | nil =>
    intro cur i o h
    simp only [pick_loop] at h
    refine ⟨by simp, ?_⟩
    intro jc oc hc
    rw [hc] at h
    cases h
    exact Nat.le_refl o
  | cons a rest ih =>
    intro cur i o h
    simp only [pick_loop] at h
    cases horder : (getDsc dscs a).logorder with
    | none =>
      rw [horder] at h
      rcases ih cur i o h with ⟨h1, h2⟩
      refine ⟨?_, h2⟩
      intro j hj oj hoj
      rcases List.mem_cons.mp hj with rfl | hj
      · rw [horder] at hoj
        exact absurd hoj (by simp)
      · exact h1 j hj oj hoj
    | some oa =>
      rw [horder] at h
      cases cur with
      | none =>
        dsimp only at h
        rcases ih (some (a, oa)) i o h with ⟨h1, h2⟩
        have hoa : o ≤ oa := h2 a oa rfl
        refine ⟨?_, by simp⟩
        intro j hj oj hoj
        rcases List.mem_cons.mp hj with rfl | hj
        · rw [horder] at hoj
          cases hoj
          exact hoa
        · exact h1 j hj oj hoj
      | some p =>
        rcases p with ⟨j, oj⟩
        dsimp only at h
        by_cases hcmp : oj > oa
        · rw [if_pos hcmp] at h
          rcases ih (some (a, oa)) i o h with ⟨h1, h2⟩
          have hoa : o ≤ oa := h2 a oa rfl
          refine ⟨?_, ?_⟩
          · intro j' hj' oj' hoj'
            rcases List.mem_cons.mp hj' with rfl | hj'
            · rw [horder] at hoj'
              cases hoj'
              exact hoa
            · exact h1 j' hj' oj' hoj'
          · intro jc oc hc
            cases hc
            exact Nat.le_of_lt (Nat.lt_of_le_of_lt hoa hcmp)
        · rw [if_neg hcmp] at h
          rcases ih (some (j, oj)) i o h with ⟨h1, h2⟩
          have hoj : o ≤ oj := h2 j oj rfl
          refine ⟨?_, ?_⟩
          · intro j' hj' oj' hoj'
            rcases List.mem_cons.mp hj' with rfl | hj'
            · rw [horder] at hoj'
              cases hoj'
              exact Nat.le_trans hoj (Nat.le_of_not_lt hcmp)
            · exact h1 j' hj' oj' hoj'
          · intro jc oc hc
            cases hc
            exact hoj

theorem pick_loop_first (dscs : List m_log_dsc_s) (l : List Nat) :
    ∀ cur i o, pick_loop dscs cur l = some (i, o) →
      cur = some (i, o) ∨
      ((∀ jc oc, cur = some (jc, oc) → o < oc) ∧
       ∃ l1 l2, l = l1 ++ i :: l2 ∧ (getDsc dscs i).logorder = some o ∧
         ∀ j ∈ l1, ∀ oj, (getDsc dscs j).logorder = some oj → o < oj) := by
  induction l with
  | nil =>
    intro cur i o h
    simp only [pick_loop] at h
    exact Or.inl h
  | cons a rest ih =>
    intro cur i o h
    simp only [pick_loop] at h
    cases horder : (getDsc dscs a).logorder with
    | none =>
      rw [horder] at h
      rcases ih cur i o h with h' | ⟨hcur, l1, l2, hsplit, hio, hpre⟩
      · exact Or.inl h'
      · refine Or.inr ⟨hcur, a :: l1, l2, by rw [hsplit]; rfl, hio, ?_⟩
        intro j hj oj hoj
        rcases List.mem_cons.mp hj with rfl | hj
        · rw [horder] at hoj
          exact absurd hoj (by simp)
        · exact hpre j hj oj hoj
    | some oa =>
      rw [horder] at h
      cases cur with
      | none =>
        dsimp only at h
        rcases ih (some (a, oa)) i o h with h' | ⟨hcur, l1, l2, hsplit, hio, hpre⟩
        · cases h'
          exact Or.inr ⟨by simp, [], rest, rfl, horder, by simp⟩
        · have hlt : o < oa := hcur a oa rfl
          refine Or.inr ⟨by simp, a :: l1, l2, by rw [hsplit]; rfl, hio, ?_⟩
          intro j hj oj hoj
          rcases List.mem_cons.mp hj with rfl | hj
          · rw [horder] at hoj
            cases hoj
            exact hlt
          · exact hpre j hj oj hoj
      | some p =>
        rcases p with ⟨j, oj⟩
        dsimp only at h
        by_cases hcmp : oj > oa
        · rw [if_pos hcmp] at h
          rcases ih (some (a, oa)) i o h with h' | ⟨hcur, l1, l2, hsplit, hio, hpre⟩
          · cases h'
            refine Or.inr ⟨?_, [], rest, rfl, horder, by simp⟩
            intro jc oc hc
            cases hc
            exact hcmp
          · have hlt : o < oa := hcur a oa rfl
            refine Or.inr ⟨?_, a :: l1, l2, by rw [hsplit]; rfl, hio, ?_⟩
            · intro jc oc hc
              cases hc
              exact Nat.lt_trans hlt hcmp
            · intro j' hj' oj' hoj'
              rcases List.mem_cons.mp hj' with rfl | hj'
              · rw [horder] at hoj'
                cases hoj'
                exact hlt
              · exact hpre j' hj' oj' hoj'
        · rw [if_neg hcmp] at h
          rcases ih (some (j, oj)) i o h with h' | ⟨hcur, l1, l2, hsplit, hio, hpre⟩
          · exact Or.inl h'
          · have hlt : o < oj := hcur j oj rfl
            refine Or.inr ⟨hcur, a :: l1, l2, by rw [hsplit]; rfl, hio, ?_⟩
            intro j' hj' oj' hoj'
            rcases List.mem_cons.mp hj' with rfl | hj'
            · rw [horder] at hoj'
              cases hoj'
              exact Nat.lt_of_lt_of_le hlt (Nat.le_of_not_lt hcmp)
            · exact hpre j' hj' oj' hoj'

theorem pick_loop_isSome_of_cur (dscs : List m_log_dsc_s) (l : List Nat) :
    ∀ j oj, (pick_loop dscs (some (j, oj)) l).isSome := by
  induction l with
  | nil =>
    intro j oj
    simp [pick_loop]
  | cons a rest ih =>
    intro j oj
    simp only [pick_loop]
    cases horder : (getDsc dscs a).logorder with
    | none => exact ih j oj
    | some oa =>
      dsimp only
      by_cases hcmp : oj > oa
      · rw [if_pos hcmp]
        exact ih a oa
      · rw [if_neg hcmp]
        exact ih j oj

theorem pick_loop_none_iff (dscs : List m_log_dsc_s) (l : List Nat) :
    pick_loop dscs none l = none ↔ ∀ j ∈ l, (getDsc dscs j).logorder = none := by
  induction l with
  | nil => simp [pick_loop]
  | cons a rest ih =>
    simp only [pick_loop]
    cases horder : (getDsc dscs a).logorder with
    | none =>
      constructor
      · intro h j hj
        rcases List.mem_cons.mp hj with rfl | hj
        · exact horder
        · exact (ih.mp h) j hj
      · intro h
        exact ih.mpr (fun j hj => h j (List.mem_cons_of_mem a hj))
    | some oa =>
      dsimp only
      constructor
      · intro h
        have := pick_loop_isSome_of_cur dscs rest a oa
        rw [h] at this
        exact absurd this (by simp)
      · intro h
        have := h a (List.mem_cons_self a rest)
        rw [horder] at this
        exact absurd this (by simp)

theorem setDsc_out_of_range (dscs : List m_log_dsc_s) (i : Nat) (d : m_log_dsc_s)
    (h : dscs.length ≤ i) : setDsc dscs i d = dscs :=
  List.set_eq_of_length_le h

theorem map_sum_le_of_le (l : List Nat) (f g : Nat → Nat) (h : ∀ j ∈ l, f j ≤ g j) :
    (l.map f).sum ≤ (l.map g).sum := by
  induction l with
  | nil => simp
  | cons a rest ih =>
    simp only [List.map_cons, List.sum_cons]
    have h1 := h a (List.mem_cons_self a rest)
    have h2 := ih (fun j hj => h j (List.mem_cons_of_mem a hj))
    omega

theorem map_sum_lt_of_mem (l : List Nat) (f g : Nat → Nat) (i : Nat)
    (hle : ∀ j ∈ l, g j ≤ f j) (hmem : i ∈ l) (hlt : g i < f i) :
    (l.map g).sum < (l.map f).sum := by
  induction l with
  | nil => exact absurd hmem (by simp)
  | cons a rest ih =>
    simp only [List.map_cons, List.sum_cons]
    rcases List.mem_cons.mp hmem with heq | hmem'
    · have h2 := map_sum_le_of_le rest g f (fun j hj => hle j (List.mem_cons_of_mem a hj))
      rw [heq] at hlt
      omega
    · have h1 := hle a (List.mem_cons_self a rest)
      have h2 := ih (fun j hj => hle j (List.mem_cons_of_mem a hj)) hmem'
      omega

theorem stepsLeft_advance_lt (d : m_log_dsc_s) (h : d.logorder.isSome) :
    stepsLeft (advanceOrder d) < stepsLeft d := by
  cases hs : d.recSteps with
  | nil => simp [stepsLeft, advanceOrder, hs, h]
  | cons a t => simp [stepsLeft, advanceOrder, hs, h]

theorem flags_setDsc_advance (dscs : List m_log_dsc_s) (i j : Nat) :
    (getDsc (setDsc dscs i (advanceOrder (getDsc dscs i))) j).nvmd_generic_flags =
    (getDsc dscs j).nvmd_generic_flags := by
  by_cases hji : i = j
  · subst hji
    by_cases hlen : i < dscs.length
    · rw [getDsc_setDsc_self _ _ _ hlen]
      rfl
    · rw [setDsc_out_of_range _ _ _ (Nat.le_of_not_lt hlen)]
  · rw [getDsc_setDsc_ne _ _ _ _ hji]

theorem recMeasure_decrease (dscs : List m_log_dsc_s) (l : List Nat) (i o : Nat)
    (h : pick_loop dscs none l = some (i, o)) :
    recMeasure (setDsc dscs i (advanceOrder (getDsc dscs i))) l < recMeasure dscs l := by
  rcases pick_loop_some_order dscs l none i o (by simp) h with ⟨hio, hmem | hc⟩
  · have hlen : i < dscs.length := lt_length_of_logorder_some dscs i o hio
    apply map_sum_lt_of_mem l _ _ i ?_ hmem ?_
    · intro j _
      by_cases hji : i = j
      · subst hji
        rw [getDsc_setDsc_self _ _ _ hlen]
        exact Nat.le_of_lt (stepsLeft_advance_lt _ (by simp [hio]))
      · rw [getDsc_setDsc_ne _ _ _ _ hji]
    · rw [getDsc_setDsc_self _ _ _ hlen]
      exact stepsLeft_advance_lt _ (by simp [hio])
  · exact absurd hc (by simp)

theorem recovery_loop_fuel_sufficient :
    ∀ n (dscs : List m_log_dsc_s) (l : List Nat), recMeasure dscs l < n →
      recovery_loop_fuel n dscs l ≠ none := by
  intro n
  induction n with
  | zero =>
    intro dscs l h
    exact absurd h (by simp)
  | succ m ih =>
    intro dscs l h
    simp only [recovery_loop_fuel]
    cases hpick : pick_loop dscs none l with
    | none => simp
    | some p =>
      rcases p with ⟨i, o⟩
      dsimp only
      by_cases hcap : hasRecDoPrep (getDsc dscs i) = true
      · rw [if_pos hcap]
        have hdec := recMeasure_decrease dscs l i o hpick
        have hm : recMeasure (setDsc dscs i (advanceOrder (getDsc dscs i))) l < m := by
          omega
        have := ih (setDsc dscs i (advanceOrder (getDsc dscs i))) l hm
        cases hrec : recovery_loop_fuel m (setDsc dscs i (advanceOrder (getDsc dscs i))) l with
        | none => exact absurd hrec this
        | some r =>
          cases r with
          | none => simp
          | some pr =>
            rcases pr with ⟨dscsF, evs⟩
            simp
      · rw [if_neg hcap]
        simp

theorem recovery_loop_fuel_irrel :
    ∀ m n (dscs : List m_log_dsc_s) (l : List Nat),
      recMeasure dscs l < m → recMeasure dscs l < n →
      recovery_loop_fuel m dscs l = recovery_loop_fuel n dscs l := by
  intro m
  induction m with
  | zero =>
    intro n dscs l hm
    exact absurd hm (by simp)
  | succ m' ih =>
    intro n dscs l hm hn
    cases n with
    | zero => exact absurd hn (by simp)
    | succ n' =>
      simp only [recovery_loop_fuel]
      cases hpick : pick_loop dscs none l with
      | none => rfl
      | some p =>
        rcases p with ⟨i, o⟩
        dsimp only
        by_cases hcap : hasRecDoPrep (getDsc dscs i) = true
        · rw [if_pos hcap, if_pos hcap]
          have hdec := recMeasure_decrease dscs l i o hpick
          have heq := ih n' (setDsc dscs i (advanceOrder (getDsc dscs i))) l
            (by omega) (by omega)
          rw [heq]
        · rw [if_neg hcap, if_neg hcap]

theorem recovery_loop_fuel_props :
    ∀ n (dscs : List m_log_dsc_s) (l : List Nat) (dscsF : List m_log_dsc_s)
      (evs : List LogEvent),
      recovery_loop_fuel n dscs l = some (some (dscsF, evs)) →
      dscsF.length = dscs.length ∧
      (∀ i, (getDsc dscsF i).nvmd_generic_flags = (getDsc dscs i).nvmd_generic_flags) ∧
      (∀ i, i ∉ l → getDsc dscsF i = getDsc dscs i) ∧
      (∀ i ∈ l, (getDsc dscsF i).logorder = none) ∧
      (∀ e ∈ evs, ∃ j, j ∈ l ∧
        (e = LogEvent.recoveryDoCb j ∨ e = LogEvent.recoveryPrepareNextCb j)) ∧
      RecoveryTrace l dscs evs dscsF := by
  intro n
  induction n with
  | zero =>
    intro dscs l dscsF evs h
    simp [recovery_loop_fuel] at h
  | succ m ih =>
    intro dscs l dscsF evs h
    simp only [recovery_loop_fuel] at h
    cases hpick : pick_loop dscs none l with
    | none =>
      rw [hpick] at h
      dsimp only at h
      injection h with h
      injection h with h
      injection h with h1 h2
      subst h1
      subst h2
      refine ⟨rfl, fun i => rfl, fun i _ => rfl, ?_, by simp, RecoveryTrace.done dscs hpick⟩
      intro i hi
      exact (pick_loop_none_iff dscs l).mp hpick i hi
    | some p =>
      rcases p with ⟨i, o⟩
      rw [hpick] at h
      dsimp only at h
      by_cases hcap : hasRecDoPrep (getDsc dscs i) = true
      · rw [if_pos hcap] at h
        have hmem : i ∈ l := by
          rcases pick_loop_some_order dscs l none i o (by simp) hpick with ⟨_, hm | hc⟩
          · exact hm
          · exact absurd hc (by simp)
        cases hrec : recovery_loop_fuel m (setDsc dscs i (advanceOrder (getDsc dscs i))) l with
        | none =>
          rw [hrec] at h
          exact absurd h (by simp)
        | some r =>
          cases r with
          | none =>
            rw [hrec] at h
            simp at h
          | some pr =>
            rcases pr with ⟨dscsF', evs'⟩
            rw [hrec] at h
            injection h with h
            injection h with h
            injection h with h1 h2
            rcases ih _ _ _ _ hrec with ⟨hlen, hflags, hframe, hpost, hevs, htrace⟩
            rw [← h1, ← h2]
            refine ⟨?_, ?_, ?_, hpost, ?_, RecoveryTrace.step dscs i o evs' dscsF' hpick htrace⟩
            · rw [hlen, length_setDsc]
            · intro j
              rw [hflags j, flags_setDsc_advance]
            · intro j hj
              rw [hframe j hj, getDsc_setDsc_ne]
              intro hij
              rw [hij] at hmem
              exact hj hmem
            · intro e he
              rcases List.mem_cons.mp he with heq | he'
              · exact ⟨i, hmem, Or.inl heq⟩
              · rcases List.mem_cons.mp he' with heq | he''
                · exact ⟨i, hmem, Or.inr heq⟩
                · exact hevs e he''
      · rw [if_neg hcap] at h
        simp at h

theorem recovery_loop_props (dscs : List m_log_dsc_s) (l : List Nat)
    (dscsF : List m_log_dsc_s) (evs : List LogEvent)
    (h : recovery_loop dscs l = some (dscsF, evs)) :
    dscsF.length = dscs.length ∧
    (∀ i, (getDsc dscsF i).nvmd_generic_flags = (getDsc dscs i).nvmd_generic_flags) ∧
    (∀ i, i ∉ l → getDsc dscsF i = getDsc dscs i) ∧
    (∀ i ∈ l, (getDsc dscsF i).logorder = none) ∧
    (∀ e ∈ evs, ∃ j, j ∈ l ∧
      (e = LogEvent.recoveryDoCb j ∨ e = LogEvent.recoveryPrepareNextCb j)) ∧
    RecoveryTrace l dscs evs dscsF := by
  unfold recovery_loop at h
  cases hfuel : recovery_loop_fuel (recMeasure dscs l + 1) dscs l with
  | none =>
    rw [hfuel] at h
    simp [Option.join] at h
  | some r =>
    cases r with
    | none =>
      rw [hfuel] at h
      simp [Option.join] at h
    | some pr =>
      rcases pr with ⟨dscsF', evs'⟩
      rw [hfuel] at h
      simp [Option.join] at h
      rcases h with ⟨h1, h2⟩
      subst h1
      subst h2
      exact recovery_loop_fuel_props _ _ _ _ _ hfuel

theorem ops_setDsc_advance (dscs : List m_log_dsc_s) (i j : Nat) :
    (getDsc (setDsc dscs i (advanceOrder (getDsc dscs i))) j).ops = (getDsc dscs j).ops := by
  by_cases hji : i = j
  · subst hji
    by_cases hlen : i < dscs.length
    · rw [getDsc_setDsc_self _ _ _ hlen]
      rfl
    · rw [setDsc_out_of_range _ _ _ (Nat.le_of_not_lt hlen)]
  · rw [getDsc_setDsc_ne _ _ _ _ hji]

theorem hasRecInit_setDsc_advance (dscs : List m_log_dsc_s) (i j : Nat) :
    hasRecInit (getDsc (setDsc dscs i (advanceOrder (getDsc dscs i))) j) =
    hasRecInit (getDsc dscs j) := by
  unfold hasRecInit
  rw [ops_setDsc_advance]

theorem collect_phase_props :
    ∀ (l : List Nat) (dscs : List m_log_dsc_s),
      ((collect_phase dscs l).2.2.1.length = dscs.length) ∧
      (∀ j, (getDsc (collect_phase dscs l).2.2.1 j).nvmd_generic_flags =
              (getDsc dscs j).nvmd_generic_flags) ∧
      (((collect_phase dscs l).1 ++ (collect_phase dscs l).2.1).Perm l) ∧
      (∀ k ∈ (collect_phase dscs l).2.1, k ∈ l ∧ hasRecInit (getDsc dscs k) = true) ∧
      (∀ k ∈ (collect_phase dscs l).1, k ∈ l ∧ hasRecInit (getDsc dscs k) = false) ∧
      (∀ j ∈ l, hasRecInit (getDsc dscs j) = false → j ∈ (collect_phase dscs l).1) ∧
      (∀ j, hasRecInit (getDsc dscs j) = false →
         getDsc (collect_phase dscs l).2.2.1 j = getDsc dscs j) ∧
      (∀ e ∈ (collect_phase dscs l).2.2.2, ∃ k, k ∈ l ∧ e = LogEvent.recoveryInitCb k ∧
         hasRecInit (getDsc dscs k) = true) := by
  intro l
  induction l with
  | nil =>
    intro dscs
    refine ⟨rfl, fun j => rfl, by simp [collect_phase], ?_, ?_, ?_, ?_, ?_⟩ <;>
      simp [collect_phase]
  | cons i rest ih =>
    intro dscs
    by_cases hq : hasRecInit (getDsc dscs i) = true
    · have hunfold : collect_phase dscs (i :: rest) =
          ((collect_phase (setDsc dscs i (advanceOrder (getDsc dscs i))) rest).1,
           (collect_phase (setDsc dscs i (advanceOrder (getDsc dscs i))) rest).2.1 ++ [i],
           (collect_phase (setDsc dscs i (advanceOrder (getDsc dscs i))) rest).2.2.1,
           LogEvent.recoveryInitCb i ::
             (collect_phase (setDsc dscs i (advanceOrder (getDsc dscs i))) rest).2.2.2) := by
        simp only [collect_phase, hq, if_pos]
      rcases ih (setDsc dscs i (advanceOrder (getDsc dscs i))) with
        ⟨hlen, hflags, hperm, hrec, hpend, hpendc, hunch, hevs⟩
      rw [hunfold]
      refine ⟨?_, ?_, ?_, ?_, ?_, ?_, ?_, ?_⟩
      · rw [hlen, length_setDsc]
      · intro j
        rw [hflags j, flags_setDsc_advance]
      · dsimp only
        rw [← List.append_assoc]
        exact ((hperm.append_right [i]).trans (List.perm_append_singleton i rest)).trans
          (List.Perm.refl _)
      · intro k hk
        rcases List.mem_append.mp hk with hk' | hk'
        · rcases hrec k hk' with ⟨hmem, hri⟩
          rw [hasRecInit_setDsc_advance] at hri
          exact ⟨List.mem_cons_of_mem i hmem, hri⟩
        · have : k = i := by simpa using hk'
          subst this
          exact ⟨List.mem_cons_self k rest, hq⟩
      · intro k hk
        rcases hpend k hk with ⟨hmem, hri⟩
        rw [hasRecInit_setDsc_advance] at hri
        exact ⟨List.mem_cons_of_mem i hmem, hri⟩
      · intro j hj hri
        rcases List.mem_cons.mp hj with heq | hj'
        · rw [heq] at hri
          rw [hri] at hq
          exact absurd hq (by simp)
        · exact hpendc j hj' (by rw [hasRecInit_setDsc_advance]; exact hri)
      · intro j hri
        have hri' : hasRecInit (getDsc (setDsc dscs i (advanceOrder (getDsc dscs i))) j)
            = false := by rw [hasRecInit_setDsc_advance]; exact hri
        rw [hunch j hri']
        have hij : i ≠ j := by
          intro heq
          rw [← heq] at hri
          rw [hri] at hq
          exact absurd hq (by simp)
        exact getDsc_setDsc_ne _ _ _ _ hij
      · intro e he
        rcases List.mem_cons.mp he with heq | he'
        · exact ⟨i, List.mem_cons_self i rest, heq, hq⟩
        · rcases hevs e he' with ⟨k, hkmem, hke, hkri⟩
          rw [hasRecInit_setDsc_advance] at hkri
          exact ⟨k, List.mem_cons_of_mem i hkmem, hke, hkri⟩
    · have hq' : hasRecInit (getDsc dscs i) = false := by
        cases h : hasRecInit (getDsc dscs i)
        · rfl
        · exact absurd h hq
      have hunfold : collect_phase dscs (i :: rest) =
          (i :: (collect_phase dscs rest).1,
           (collect_phase dscs rest).2.1,
           (collect_phase dscs rest).2.2.1,
           (collect_phase dscs rest).2.2.2) := by
        simp only [collect_phase, hq', Bool.false_eq_true, if_neg, not_false_iff]
      rcases ih dscs with ⟨hlen, hflags, hperm, hrec, hpend, hpendc, hunch, hevs⟩
      rw [hunfold]
      refine ⟨hlen, hflags, ?_, ?_, ?_, ?_, hunch, ?_⟩
      · dsimp only
        exact hperm.cons i
      · intro k hk
        rcases hrec k hk with ⟨hmem, hri⟩
        exact ⟨List.mem_cons_of_mem i hmem, hri⟩
      · intro k hk
        rcases List.mem_cons.mp hk with heq | hk'
        · subst heq
          exact ⟨List.mem_cons_self k rest, hq'⟩
        · rcases hpend k hk' with ⟨hmem, hri⟩
          exact ⟨List.mem_cons_of_mem i hmem, hri⟩
      · intro j hj hri
        rcases List.mem_cons.mp hj with heq | hj'
        · subst heq
          exact List.mem_cons_self j _
        · exact List.mem_cons_of_mem i (hpendc j hj' hri)
      · intro e he
        rcases hevs e he with ⟨k, hkmem, hke, hkri⟩
        exact ⟨k, List.mem_cons_of_mem i hkmem, hke, hkri⟩

theorem do_recovery_eq (mgr : m_logmgr_s) (r : m_result_t) (mgr' : m_logmgr_s)
    (evs : List LogEvent) (h : do_recovery mgr = some (r, mgr', evs)) :
    ∃ dscs2 evs2,
      recovery_loop (collect_phase mgr.dscs mgr.pending_logs_list).2.2.1
          (collect_phase mgr.dscs mgr.pending_logs_list).2.1 = some (dscs2, evs2) ∧
      r = M_R_SUCCESS ∧
      mgr' = { mgr with dscs := dscs2,
                        pending_logs_list := (collect_phase mgr.dscs mgr.pending_logs_list).1,
                        free_logs_list := (collect_phase mgr.dscs mgr.pending_logs_list).2.1
                                            ++ mgr.free_logs_list } ∧
      evs = (collect_phase mgr.dscs mgr.pending_logs_list).2.2.2 ++ evs2 := by
  unfold do_recovery at h
  dsimp only at h
  cases hloop : recovery_loop (collect_phase mgr.dscs mgr.pending_logs_list).2.2.1
      (collect_phase mgr.dscs mgr.pending_logs_list).2.1 with
  | none =>
    rw [hloop] at h
    exact absurd h (by simp)
  | some p =>
    rcases p with ⟨dscs2, evs2⟩
    rw [hloop] at h
    injection h with h
    injection h with h1 h
    injection h with h2 h3
    exact ⟨dscs2, evs2, rfl, h1.symm, h2.symm, h3.symm⟩

theorem recovery_loop_nil (dscs : List m_log_dsc_s) :
    recovery_loop dscs [] = some (dscs, []) := rfl

/-- C10: the recovery scheduler itself writes no slot's persisted metadata — a
do_recovery run issues no persistent tag store and no barrier, every slot's
`generic_flags` (and hence its type tag) is exactly what it was when recovery
started, and every descriptor moved through the recovery set sits on the free
list afterwards, still carrying its prior tag (not reset to FREE). -/
theorem C10_recovery_writes_no_metadata (mgr : m_logmgr_s) (r : m_result_t)
    (mgr' : m_logmgr_s) (evs : List LogEvent)
    (h : do_recovery mgr = some (r, mgr', evs)) :
    (∀ i, (getDsc mgr'.dscs i).nvmd_generic_flags = (getDsc mgr.dscs i).nvmd_generic_flags) ∧
    (∀ i, tagOf (getDsc mgr'.dscs i).nvmd_generic_flags =
            tagOf (getDsc mgr.dscs i).nvmd_generic_flags) ∧
    (∀ e ∈ evs, (∀ i v, e ≠ LogEvent.pcmStoreTag i v) ∧ e ≠ LogEvent.pcmBarrier) ∧
    (∀ i ∈ (collect_phase mgr.dscs mgr.pending_logs_list).2.1, i ∈ mgr'.free_logs_list) := by
  rcases do_recovery_eq mgr r mgr' evs h with ⟨dscs2, evs2, hloop, hr, hmgr, hevs⟩
  rcases recovery_loop_props _ _ _ _ hloop with ⟨_, hflags2, _, _, hevs2, _⟩
  rcases collect_phase_props mgr.pending_logs_list mgr.dscs with
    ⟨_, hflags1, _, _, _, _, _, hevs1⟩
  subst hmgr
  subst hevs
  refine ⟨?_, ?_, ?_, ?_⟩
  · intro i
    dsimp only
    rw [hflags2 i, hflags1 i]
  · intro i
    dsimp only
    rw [hflags2 i, hflags1 i]
  · intro e he
    rcases List.mem_append.mp he with h1 | h2
    · rcases hevs1 e h1 with ⟨k, _, hk, _⟩
      subst hk
      exact ⟨fun i v => by simp, by simp⟩
    · rcases hevs2 e h2 with ⟨k, _, hk | hk⟩ <;> subst hk <;>
        exact ⟨fun i v => by simp, by simp⟩
  · intro i hi
    dsimp only
    exact List.mem_append.mpr (Or.inl hi)

theorem C10_recovery_writes_no_metadata_w :
    (getDsc wRecMgrAfter.dscs 0).nvmd_generic_flags =
      (getDsc wRecMgr.dscs 0).nvmd_generic_flags ∧
    0 ∈ wRecMgrAfter.free_logs_list := by
  have h := C10_recovery_writes_no_metadata wRecMgr M_R_SUCCESS wRecMgrAfter wRecEvs rfl
  exact ⟨h.1 0, h.2.2.2 0 (by decide)⟩

/-- C8: a pending descriptor whose operations table is absent or lacks the
`recovery_init` capability is neither recovered nor freed by do_recovery: no
callback or store is invoked on it and it is still on the pending list,
unchanged, when the call returns. -/
theorem C8_unregistered_pending_untouched (mgr : m_logmgr_s) (r : m_result_t)
    (mgr' : m_logmgr_s) (evs : List LogEvent) (j : Nat)
    (h : do_recovery mgr = some (r, mgr', evs))
    (hmem : j ∈ mgr.pending_logs_list)
    (hcap : hasRecInit (getDsc mgr.dscs j) = false) :
    j ∈ mgr'.pending_logs_list ∧
    getDsc mgr'.dscs j = getDsc mgr.dscs j ∧
    (∀ e ∈ evs, eventDsc e ≠ some j) := by
  rcases do_recovery_eq mgr r mgr' evs h with ⟨dscs2, evs2, hloop, hr, hmgr, hevs⟩
  rcases recovery_loop_props _ _ _ _ hloop with ⟨_, _, hframe2, _, hevs2, _⟩
  rcases collect_phase_props mgr.pending_logs_list mgr.dscs with
    ⟨_, _, _, hrec, _, hpendc, hunch, hevs1⟩
  have hnotrec : j ∉ (collect_phase mgr.dscs mgr.pending_logs_list).2.1 := by
    intro hj
    rcases hrec j hj with ⟨_, htrue⟩
    rw [htrue] at hcap
    exact absurd hcap (by simp)
  subst hmgr
  subst hevs
  refine ⟨?_, ?_, ?_⟩
  · dsimp only
    exact hpendc j hmem hcap
  · dsimp only
    rw [hframe2 j hnotrec, hunch j hcap]
  · intro e he
    rcases List.mem_append.mp he with h1 | h2
    · rcases hevs1 e h1 with ⟨k, _, hk, hktrue⟩
      subst hk
      simp only [eventDsc]
      intro hkj
      injection hkj with hkj
      rw [hkj] at hktrue
      rw [hktrue] at hcap
      exact absurd hcap (by simp)
    · rcases hevs2 e h2 with ⟨k, hkmem, hk | hk⟩ <;> subst hk <;>
        · simp only [eventDsc]
          intro hkj
          injection hkj with hkj
          rw [hkj] at hkmem
          rcases hrec j hkmem with ⟨_, htrue⟩
          rw [htrue] at hcap
          exact absurd hcap (by simp)

theorem C8_unregistered_pending_untouched_w :
    0 ∈ wPendMgr.pending_logs_list ∧ getDsc wPendMgr.dscs 0 = getDsc wPendMgr.dscs 0 := by
  have h := C8_unregistered_pending_untouched wPendMgr M_R_SUCCESS wPendMgr [] 0
    rfl (by decide) (by decide)
  exact ⟨h.1, h.2.1⟩

/-- C1: the ordering loop of do_recovery selects, at every iteration, the
first-encountered descriptor with the numerically smallest non-INV recovery
order among the recovery set (conjunct 1), invokes `recovery_do` and then
`recovery_prepare_next` on it (the `RecoveryTrace` shape, conjunct 3); the
selection scan comes up empty exactly when no descriptor has a non-INV order
(conjunct 2), the loop terminates — any fuel beyond the remaining-work measure
yields the same final answer and never exhausts (conjunct 4) — with every
recovery-set member's order at INV (conjunct 3), and every descriptor moved
into the recovery set during collection ends up on the free list (conjunct 5). -/
theorem C1_recovery_scheduler_ordering :
    (∀ dscs (l : List Nat) i o, pick_loop dscs none l = some (i, o) →
       ∃ l1 l2, l = l1 ++ i :: l2 ∧ (getDsc dscs i).logorder = some o ∧
         (∀ j ∈ l1, ∀ oj, (getDsc dscs j).logorder = some oj → o < oj) ∧
         (∀ j ∈ l, ∀ oj, (getDsc dscs j).logorder = some oj → o ≤ oj)) ∧
    (∀ dscs (l : List Nat), pick_loop dscs none l = none ↔
       ∀ j ∈ l, (getDsc dscs j).logorder = none) ∧
    (∀ dscs (l : List Nat) dscsF evs, recovery_loop dscs l = some (dscsF, evs) →
       RecoveryTrace l dscs evs dscsF ∧ ∀ j ∈ l, (getDsc dscsF j).logorder = none) ∧
    (∀ n dscs (l : List Nat), recMeasure dscs l < n →
       recovery_loop_fuel n dscs l = recovery_loop_fuel (recMeasure dscs l + 1) dscs l ∧
       recovery_loop_fuel n dscs l ≠ none) ∧
    (∀ mgr r mgr' evs, do_recovery mgr = some (r, mgr', evs) →
       ∀ i ∈ (collect_phase mgr.dscs mgr.pending_logs_list).2.1,
         i ∈ mgr'.free_logs_list) := by
  refine ⟨?_, ?_, ?_, ?_, ?_⟩
  · intro dscs l i o h
    rcases pick_loop_first dscs l none i o h with hc | ⟨_, l1, l2, hsplit, hord, hpre⟩
    · exact absurd hc (by simp)
    · rcases pick_loop_min dscs l none i o h with ⟨hmin, _⟩
      exact ⟨l1, l2, hsplit, hord, hpre, hmin⟩
  · intro dscs l
    exact pick_loop_none_iff dscs l
  · intro dscs l dscsF evs h
    rcases recovery_loop_props dscs l dscsF evs h with ⟨_, _, _, hpost, _, htrace⟩
    exact ⟨htrace, hpost⟩
  · intro n dscs l hn
    exact ⟨recovery_loop_fuel_irrel n (recMeasure dscs l + 1) dscs l hn (by omega),
           recovery_loop_fuel_sufficient n dscs l hn⟩
  · intro mgr r mgr' evs h i hi
    rcases do_recovery_eq mgr r mgr' evs h with ⟨dscs2, evs2, hloop, hr, hmgr, hevs⟩
    subst hmgr
    dsimp only
    exact List.mem_append.mpr (Or.inl hi)

theorem C1_recovery_scheduler_ordering_w :
    (getDsc wPickDscs 1).logorder = some 2 := by
  have h := C1_recovery_scheduler_ordering
  rcases h.1 wPickDscs [0, 1] 1 2 (by decide) with ⟨l1, l2, _, hord, _, _⟩
  exact hord

theorem scan_free_loop_eq (dscs : List m_log_dsc_s) (ty : Nat) :
    ∀ (l : List Nat) (fm ff : Option Nat),
      scan_free_loop dscs ty (fm, ff) l =
        (fm <|> l.find? (fun i => tagOf (getDsc dscs i).nvmd_generic_flags == ty),
         ff <|> l.find? (fun i => tagOf (getDsc dscs i).nvmd_generic_flags == LF_TYPE_FREE)) := by
  intro l
  induction l with
  | nil =>
    intro fm ff
    cases fm <;> cases ff <;> simp [scan_free_loop]
  | cons i rest ih =>
    intro fm ff
    simp only [scan_free_loop]
    rw [ih]
    by_cases hty : tagOf (getDsc dscs i).nvmd_generic_flags = ty <;>
      by_cases hfree : tagOf (getDsc dscs i).nvmd_generic_flags = LF_TYPE_FREE <;>
      cases fm <;> cases ff <;>
      simp [hty, hfree, List.find?_cons] <;>
      (by_cases htf : ty = LF_TYPE_FREE
       · simp [htf, eq_comm]
       · have htf' : ¬LF_TYPE_FREE = ty := fun he => htf he.symm
         have hb : (ty == LF_TYPE_FREE) = false := by simp [htf]
         have hb' : (LF_TYPE_FREE == ty) = false := by simp [htf']
         simp [htf, htf', hb, hb'])

theorem scan_fst_some (dscs : List m_log_dsc_s) (ty : Nat) (l : List Nat) (i : Nat)
    (h : (scan_free_loop dscs ty (none, none) l).1 = some i) :
    i ∈ l ∧ tagOf (getDsc dscs i).nvmd_generic_flags = ty := by
  rw [scan_free_loop_eq] at h
  simp only [Option.none_orElse] at h
  exact ⟨List.mem_of_find?_eq_some h, by simpa using List.find?_some h⟩

theorem scan_snd_some (dscs : List m_log_dsc_s) (ty : Nat) (l : List Nat) (i : Nat)
    (h : (scan_free_loop dscs ty (none, none) l).2 = some i) :
    i ∈ l ∧ tagOf (getDsc dscs i).nvmd_generic_flags = LF_TYPE_FREE := by
  rw [scan_free_loop_eq] at h
  simp only [Option.none_orElse] at h
  exact ⟨List.mem_of_find?_eq_some h, by simpa using List.find?_some h⟩

theorem alloc_finish_cases (mgr : m_logmgr_s) (ty i : Nat) (evs0 : List LogEvent)
    (r : m_result_t) (mgr' : m_logmgr_s) (io : Option Nat) (evs : List LogEvent)
    (h : alloc_finish mgr ty i evs0 = some (r, mgr', io, evs)) :
    r = M_R_SUCCESS ∧ io = some i ∧
    mgr'.free_logs_list = mgr.free_logs_list.erase i ∧
    mgr'.active_logs_list = mgr.active_logs_list ++ [i] ∧
    mgr'.pending_logs_list = mgr.pending_logs_list ∧
    mgr'.known_logtypes_list = mgr.known_logtypes_list ∧
    mgr'.dscs.length = mgr.dscs.length ∧
    (∀ j, j ≠ i → getDsc mgr'.dscs j = getDsc mgr.dscs j) ∧
    (i < mgr.dscs.length →
       (getDsc mgr'.dscs i).nvmd_generic_flags =
         setTagBits (getDsc mgr.dscs i).nvmd_generic_flags ty) ∧
    evs = evs0 ++ [LogEvent.initCb i,
                   LogEvent.pcmStoreTag i
                     (setTagBits (getDsc mgr.dscs i).nvmd_generic_flags ty),
                   LogEvent.pcmBarrier] := by
  unfold alloc_finish at h
  dsimp only at h
  cases hops : (getDsc mgr.dscs i).ops with
  | none =>
    rw [hops] at h
    exact absurd h (by simp)
  | some ops =>
    rw [hops] at h
    dsimp only at h
    by_cases hinit : ops.init = true
    · rw [if_pos hinit] at h
      injection h with h
      injection h with h1 h
      injection h with h2 h
      injection h with h3 h4
      refine ⟨h1.symm, h3.symm, ?_, ?_, ?_, ?_, ?_, ?_, ?_, ?_⟩
      · rw [← h2]
      · rw [← h2]
      · rw [← h2]
      · rw [← h2]
      · rw [← h2]
        dsimp only
        rw [length_setDsc]
      · intro j hj
        rw [← h2]
        dsimp only
        rw [getDsc_setDsc_ne _ _ _ _ (fun he => hj he.symm)]
      · intro hlen
        rw [← h2]
        dsimp only
        rw [getDsc_setDsc_self _ _ _ hlen]
        rfl
      · rw [← h4]
        rfl
    · rw [if_neg hinit] at h
      exact absurd h (by simp)

theorem alloc_log_body_cases (mgr : m_logmgr_s) (ty : Nat) (r : m_result_t)
    (mgr' : m_logmgr_s) (io : Option Nat) (evs : List LogEvent)
    (h : alloc_log_body mgr ty = some (r, mgr', io, evs)) :
    (r = M_R_FAILURE ∧ mgr' = mgr ∧ io = none ∧
       (evs = [] ∨ evs = [LogEvent.registryLookup ty])) ∨
    (∃ i, io = some i ∧ r = M_R_SUCCESS ∧ i ∈ mgr.free_logs_list ∧
       mgr'.free_logs_list = mgr.free_logs_list.erase i ∧
       mgr'.active_logs_list = mgr.active_logs_list ++ [i] ∧
       mgr'.pending_logs_list = mgr.pending_logs_list ∧
       mgr'.known_logtypes_list = mgr.known_logtypes_list ∧
       mgr'.dscs.length = mgr.dscs.length ∧
       (tagOf (getDsc mgr.dscs i).nvmd_generic_flags = ty ∨
        tagOf (getDsc mgr.dscs i).nvmd_generic_flags = LF_TYPE_FREE) ∧
       (i < mgr.dscs.length →
          (getDsc mgr'.dscs i).nvmd_generic_flags =
            setTagBits (getDsc mgr.dscs i).nvmd_generic_flags ty) ∧
       (∃ pre, evs = pre ++ [LogEvent.initCb i,
                 LogEvent.pcmStoreTag i
                   (setTagBits (getDsc mgr.dscs i).nvmd_generic_flags ty),
                 LogEvent.pcmBarrier])) := by
  unfold alloc_log_body at h
  cases hscan : scan_free_loop mgr.dscs ty (none, none) mgr.free_logs_list with
  | mk fm ff =>
    rw [hscan] at h
    cases fm with
    | some i =>
      dsimp only at h
      rcases scan_fst_some mgr.dscs ty mgr.free_logs_list i (by rw [hscan]) with ⟨hmem, htag⟩
      rcases alloc_finish_cases mgr ty i [] r mgr' io evs h with
        ⟨hr, hio, hfree, hact, hpend, hknown, hlen, _, hfl, hevs⟩
      exact Or.inr ⟨i, hio, hr, hmem, hfree, hact, hpend, hknown, hlen,
        Or.inl htag, hfl, [], by simpa using hevs⟩
    | none =>
      cases ff with
      | none =>
        dsimp only at h
        injection h with h
        injection h with h1 h
        injection h with h2 h
        injection h with h3 h4
        exact Or.inl ⟨h1.symm, h2.symm, h3.symm, Or.inl h4.symm⟩
      | some i =>
        dsimp only at h
        rcases scan_snd_some mgr.dscs ty mgr.free_logs_list i (by rw [hscan]) with ⟨hmem, htag⟩
        cases hfind : known_find mgr.known_logtypes_list ty with
        | some ops =>
          rw [hfind] at h
          dsimp only at h
          by_cases halloc : ops.alloc = true
          · rw [if_pos halloc] at h
            have hfl1 : (getDsc (setDsc mgr.dscs i
                (applyAllocCb { getDsc mgr.dscs i with ops := some ops })) i).nvmd_generic_flags
                = (getDsc mgr.dscs i).nvmd_generic_flags := by
              by_cases hlen : i < mgr.dscs.length
              · rw [getDsc_setDsc_self _ _ _ hlen]
                rfl
              · rw [setDsc_out_of_range _ _ _ (Nat.le_of_not_lt hlen)]
            rcases alloc_finish_cases _ ty i _ r mgr' io evs h with
              ⟨hr, hio, hfree, hact, hpend, hknown, hlen, _, hfl, hevs⟩
            refine Or.inr ⟨i, hio, hr, hmem, by simpa using hfree, by simpa using hact,
              by simpa using hpend, by simpa using hknown, ?_, Or.inr htag, ?_, ?_⟩
            · rw [hlen]
              dsimp only
              rw [length_setDsc]
            · intro hlt
              have hlt' : i < (setDsc mgr.dscs i
                  (applyAllocCb { getDsc mgr.dscs i with ops := some ops })).length := by
                rw [length_setDsc]
                exact hlt
              have := hfl (by simpa using hlt')
              rw [hfl1] at this
              exact this
            · refine ⟨[LogEvent.registryLookup ty, LogEvent.allocCb i], ?_⟩
              rw [hevs, hfl1]
              rfl
          · rw [if_neg halloc] at h
            exact absurd h (by simp)
        | none =>
          rw [hfind] at h
          dsimp only at h
          by_cases hops : (getDsc mgr.dscs i).ops.isNone
          · rw [if_pos hops] at h
            injection h with h
            injection h with h1 h
            injection h with h2 h
            injection h with h3 h4
            exact Or.inl ⟨h1.symm, h2.symm, h3.symm, Or.inr h4.symm⟩
          · rw [if_neg hops] at h
            rcases alloc_finish_cases mgr ty i _ r mgr' io evs h with
              ⟨hr, hio, hfree, hact, hpend, hknown, hlen, _, hfl, hevs⟩
            exact Or.inr ⟨i, hio, hr, hmem, hfree, hact, hpend, hknown, hlen,
              Or.inr htag, hfl, [LogEvent.registryLookup ty], by simpa using hevs⟩

theorem alloc_fst_selected (mgr : m_logmgr_s) (ty i : Nat) (r : m_result_t)
    (mgr' : m_logmgr_s) (io : Option Nat) (evs : List LogEvent)
    (hfst : (scan_free_loop mgr.dscs ty (none, none) mgr.free_logs_list).1 = some i)
    (h : alloc_log_body mgr ty = some (r, mgr', io, evs)) :
    io = some i ∧
    evs = [LogEvent.initCb i,
           LogEvent.pcmStoreTag i (setTagBits (getDsc mgr.dscs i).nvmd_generic_flags ty),
           LogEvent.pcmBarrier] := by
  unfold alloc_log_body at h
  cases hscan : scan_free_loop mgr.dscs ty (none, none) mgr.free_logs_list with
  | mk fm ff =>
    rw [hscan] at h hfst
    dsimp only at hfst
    subst hfst
    dsimp only at h
    rcases alloc_finish_cases mgr ty i [] r mgr' io evs h with
      ⟨_, hio, _, _, _, _, _, _, _, hevs⟩
    exact ⟨hio, by simpa using hevs⟩

theorem alloc_fallback_lookup (mgr : m_logmgr_s) (ty i : Nat) (ops : m_log_ops_s)
    (r : m_result_t) (mgr' : m_logmgr_s) (io : Option Nat) (evs : List LogEvent)
    (hfst : (scan_free_loop mgr.dscs ty (none, none) mgr.free_logs_list).1 = none)
    (hsnd : (scan_free_loop mgr.dscs ty (none, none) mgr.free_logs_list).2 = some i)
    (hfind : known_find mgr.known_logtypes_list ty = some ops)
    (h : alloc_log_body mgr ty = some (r, mgr', io, evs)) :
    ops.alloc = true ∧ io = some i ∧
    evs = [LogEvent.registryLookup ty, LogEvent.allocCb i] ++
          [LogEvent.initCb i,
           LogEvent.pcmStoreTag i (setTagBits (getDsc mgr.dscs i).nvmd_generic_flags ty),
           LogEvent.pcmBarrier] := by
  unfold alloc_log_body at h
  cases hscan : scan_free_loop mgr.dscs ty (none, none) mgr.free_logs_list with
  | mk fm ff =>
    rw [hscan] at h hfst hsnd
    dsimp only at hfst hsnd
    subst hfst
    subst hsnd
    rw [hfind] at h
    dsimp only at h
    by_cases halloc : ops.alloc = true
    · rw [if_pos halloc] at h
      have hfl1 : (getDsc (setDsc mgr.dscs i
          (applyAllocCb { getDsc mgr.dscs i with ops := some ops })) i).nvmd_generic_flags
          = (getDsc mgr.dscs i).nvmd_generic_flags := by
        by_cases hlen : i < mgr.dscs.length
        · rw [getDsc_setDsc_self _ _ _ hlen]
          rfl
        · rw [setDsc_out_of_range _ _ _ (Nat.le_of_not_lt hlen)]
      rcases alloc_finish_cases _ ty i _ r mgr' io evs h with
        ⟨_, hio, _, _, _, _, _, _, _, hevs⟩
      refine ⟨halloc, hio, ?_⟩
      rw [hevs, hfl1]
      rfl
    · rw [if_neg halloc] at h
      exact absurd h (by simp)

theorem alloc_unknown_type (mgr : m_logmgr_s) (ty i : Nat)
    (hfst : (scan_free_loop mgr.dscs ty (none, none) mgr.free_logs_list).1 = none)
    (hsnd : (scan_free_loop mgr.dscs ty (none, none) mgr.free_logs_list).2 = some i)
    (hfind : known_find mgr.known_logtypes_list ty = none)
    (hops : (getDsc mgr.dscs i).ops = none) :
    alloc_log_body mgr ty = some (M_R_FAILURE, mgr, none, [LogEvent.registryLookup ty]) := by
  unfold alloc_log_body
  cases hscan : scan_free_loop mgr.dscs ty (none, none) mgr.free_logs_list with
  | mk fm ff =>
    rw [hscan] at hfst hsnd
    dsimp only at hfst hsnd
    subst hfst
    subst hsnd
    rw [hfind]
    dsimp only
    rw [if_pos (by rw [hops]; rfl)]

theorem alloc_no_free_slot (mgr : m_logmgr_s) (ty : Nat)
    (hfst : (scan_free_loop mgr.dscs ty (none, none) mgr.free_logs_list).1 = none)
    (hsnd : (scan_free_loop mgr.dscs ty (none, none) mgr.free_logs_list).2 = none) :
    alloc_log_body mgr ty = some (M_R_FAILURE, mgr, none, []) := by
  unfold alloc_log_body
  cases hscan : scan_free_loop mgr.dscs ty (none, none) mgr.free_logs_list with
  | mk fm ff =>
    rw [hscan] at hfst hsnd
    dsimp only at hfst hsnd
    subst hfst
    subst hsnd
    rfl

theorem tagOf_setTagBits (f ty : Nat) : tagOf (setTagBits f ty) = ty % (LF_TYPE_MASK + 1) := by
  unfold tagOf setTagBits LF_TYPE_MASK
  omega

/-- C3: the allocator's single pass over the free list records exactly the
first descriptor whose persisted tag equals the requested type and the first
whose tag is FREE (conjunct 1); when a tag-matched descriptor exists it is the
one selected and returned, with no registry lookup and no `ops.alloc`
invocation (conjunct 2); otherwise, when a FREE-tagged descriptor exists and
the registry holds the type, the operations table is resolved by registry
lookup and `ops.alloc` is invoked on the selected descriptor (conjunct 3). -/
theorem C3_alloc_scan_preference :
    (∀ dscs ty (l : List Nat),
       scan_free_loop dscs ty (none, none) l =
         (l.find? (fun i => tagOf (getDsc dscs i).nvmd_generic_flags == ty),
          l.find? (fun i => tagOf (getDsc dscs i).nvmd_generic_flags == LF_TYPE_FREE))) ∧
    (∀ mgr ty i r mgr' io evs,
       (scan_free_loop mgr.dscs ty (none, none) mgr.free_logs_list).1 = some i →
       alloc_log_body mgr ty = some (r, mgr', io, evs) →
       io = some i ∧
       (∀ e ∈ evs, e ≠ LogEvent.registryLookup ty ∧ ∀ k, e ≠ LogEvent.allocCb k)) ∧
    (∀ mgr ty i ops r mgr' io evs,
       (scan_free_loop mgr.dscs ty (none, none) mgr.free_logs_list).1 = none →
       (scan_free_loop mgr.dscs ty (none, none) mgr.free_logs_list).2 = some i →
       known_find mgr.known_logtypes_list ty = some ops →
       alloc_log_body mgr ty = some (r, mgr', io, evs) →
       io = some i ∧ LogEvent.registryLookup ty ∈ evs ∧ LogEvent.allocCb i ∈ evs) := by
  refine ⟨?_, ?_, ?_⟩
  · intro dscs ty l
    rw [scan_free_loop_eq]
    rfl
  · intro mgr ty i r mgr' io evs hfst h
    rcases alloc_fst_selected mgr ty i r mgr' io evs hfst h with ⟨hio, hevs⟩
    subst hevs
    refine ⟨hio, ?_⟩
    intro e he
    rcases List.mem_cons.mp he with rfl | he
    · exact ⟨by simp, fun k => by simp⟩
    rcases List.mem_cons.mp he with rfl | he
    · exact ⟨by simp, fun k => by simp⟩
    rcases List.mem_cons.mp he with rfl | he
    · exact ⟨by simp, fun k => by simp⟩
    · exact absurd he (by simp)
  · intro mgr ty i ops r mgr' io evs hfst hsnd hfind h
    rcases alloc_fallback_lookup mgr ty i ops r mgr' io evs hfst hsnd hfind h with
      ⟨_, hio, hevs⟩
    subst hevs
    exact ⟨hio, by simp, by simp⟩

theorem C3_alloc_scan_preference_w :
    (some 0 : Option Nat) = some 0 ∧
    (∀ e ∈ wAllocEvs, e ≠ LogEvent.registryLookup 1 ∧ ∀ k, e ≠ LogEvent.allocCb k) := by
  have h := C3_alloc_scan_preference
  exact h.2.1 wAllocMgr 1 0 M_R_SUCCESS wAllocMgrAfter (some 0) wAllocEvs (by decide) rfl

/-- C4 counterexample: the unknown-type failure is NOT a distinct error code —
with one FREE slot and unregistered type 7 the allocator returns `M_R_FAILURE`,
exactly the same code the no-free-slot case returns, so the two failures are
not distinguishable by the caller as the claim states. -/
theorem C4_counterexample :
    alloc_log_body wUnknownMgr 7 =
      some (M_R_FAILURE, wUnknownMgr, none, [LogEvent.registryLookup 7]) ∧
    alloc_log_body wNoFreeMgr 7 = some (M_R_FAILURE, wNoFreeMgr, none, []) :=
  ⟨rfl, rfl⟩

/-- C4 (amended): when no free descriptor's tag matches, a FREE-tagged
descriptor exists, and the type has no registry entry, the call fails with the
same generic `M_R_FAILURE` code that the no-free-slot case returns (the two
failures are not distinguishable by return value) and mutates no state: the
manager — lists, descriptors, registry — is returned unchanged, no callback
runs and no persistent store or barrier is issued. -/
theorem C4_unknown_type_failure_no_mutation :
    (∀ mgr ty i,
       (scan_free_loop mgr.dscs ty (none, none) mgr.free_logs_list).1 = none →
       (scan_free_loop mgr.dscs ty (none, none) mgr.free_logs_list).2 = some i →
       known_find mgr.known_logtypes_list ty = none →
       (getDsc mgr.dscs i).ops = none →
       alloc_log_body mgr ty =
         some (M_R_FAILURE, mgr, none, [LogEvent.registryLookup ty])) ∧
    (∀ mgr ty,
       (scan_free_loop mgr.dscs ty (none, none) mgr.free_logs_list).1 = none →
       (scan_free_loop mgr.dscs ty (none, none) mgr.free_logs_list).2 = none →
       alloc_log_body mgr ty = some (M_R_FAILURE, mgr, none, [])) :=
  ⟨alloc_unknown_type, alloc_no_free_slot⟩

theorem C4_unknown_type_failure_no_mutation_w :
    alloc_log_body wUnknownMgr 7 =
      some (M_R_FAILURE, wUnknownMgr, none, [LogEvent.registryLookup 7]) ∧
    alloc_log_body wNoFreeMgr 3 = some (M_R_FAILURE, wNoFreeMgr, none, []) := by
  have h := C4_unknown_type_failure_no_mutation
  exact ⟨h.1 wUnknownMgr 7 0 (by decide) (by decide) (by decide) (by decide),
         h.2 wNoFreeMgr 3 (by decide) (by decide)⟩

/-- C5: every successful allocation moves the selected descriptor from the
free list to the tail of the active list, invokes `ops.init` on its volatile
log object, and persists the type tag into the low bits of the slot's
`generic_flags` by a store-with-barrier that is issued only after the `init`
invocation, in the trace order init, store, barrier. -/
theorem C5_alloc_success_moves_inits_tags (mgr : m_logmgr_s) (ty : Nat)
    (r : m_result_t) (mgr' : m_logmgr_s) (i : Nat) (evs : List LogEvent)
    (hty : ty ≤ LF_TYPE_MASK)
    (hwf : ∀ j ∈ mgr.free_logs_list, j < mgr.dscs.length)
    (h : alloc_log_body mgr ty = some (r, mgr', some i, evs)) :
    r = M_R_SUCCESS ∧
    i ∈ mgr.free_logs_list ∧
    mgr'.free_logs_list = mgr.free_logs_list.erase i ∧
    mgr'.active_logs_list = mgr.active_logs_list ++ [i] ∧
    tagOf (getDsc mgr'.dscs i).nvmd_generic_flags = ty ∧
    (∃ pre, evs = pre ++
       [LogEvent.initCb i,
        LogEvent.pcmStoreTag i (setTagBits (getDsc mgr.dscs i).nvmd_generic_flags ty),
        LogEvent.pcmBarrier]) := by
  rcases alloc_log_body_cases mgr ty r mgr' (some i) evs h with
    ⟨_, _, hio, _⟩ | ⟨i', hio, hr, hmem, hfree, hact, _, _, _, _, hfl, hevs⟩
  · exact absurd hio (by simp)
  · have hii : i' = i := by
      injection hio with hio
      exact hio.symm
    rw [hii] at hmem hfree hact hfl hevs
    refine ⟨hr, hmem, hfree, hact, ?_, hevs⟩
    rw [hfl (hwf i hmem), tagOf_setTagBits]
    exact Nat.mod_eq_of_lt (Nat.lt_succ_of_le hty)

theorem C5_alloc_success_moves_inits_tags_w :
    0 ∈ wAllocMgr.free_logs_list ∧
    wAllocMgrAfter.active_logs_list = wAllocMgr.active_logs_list ++ [0] ∧
    tagOf (getDsc wAllocMgrAfter.dscs 0).nvmd_generic_flags = 1 := by
  have h := C5_alloc_success_moves_inits_tags wAllocMgr 1 M_R_SUCCESS wAllocMgrAfter 0
    wAllocEvs (by decide) (by decide) rfl
  exact ⟨h.2.1, h.2.2.2.1, h.2.2.2.2.1⟩

/-- C7 counterexample: recovery places the slot persisted with tag 2 on the
free list (tag unchanged), type 1 is registered, yet `allocate_log(1)` fails —
it does not select, let alone rebind, the recovered slot whose tag names a
different non-FREE type, contradicting the claim that a subsequent allocation
for any registered type may select such a slot. -/
theorem C7_counterexample :
    do_recovery wPriorMgr =
      some (M_R_SUCCESS, wPriorMgrRec, [LogEvent.recoveryInitCb 0]) ∧
    register_logtype wPriorMgrRec 1 opsFull = some (M_R_SUCCESS, wPriorMgrReg, []) ∧
    tagOf (getDsc wPriorMgrReg.dscs 0).nvmd_generic_flags = 2 ∧
    0 ∈ wPriorMgrReg.free_logs_list ∧
    alloc_log_body wPriorMgrReg 1 = some (M_R_FAILURE, wPriorMgrReg, none, []) :=
  ⟨rfl, rfl, rfl, by decide, rfl⟩

/-- C7 (amended): after recovery a recovered slot sits on the free list with
its prior tag; it is reusable only through the allocator's tag-match (or
FREE-tag) selection — every descriptor a successful allocation selects has a
persisted tag equal to the requested type or equal to FREE (conjunct 1), and
when a tag-matched descriptor exists it is the one selected (conjunct 2); a
request for a different registered type never selects a slot carrying another
non-FREE tag (the code's documented TODO limitation). -/
theorem C7_recovered_reuse_requires_tag_match :
    (∀ mgr ty (r : m_result_t) (mgr' : m_logmgr_s) i (evs : List LogEvent),
       alloc_log_body mgr ty = some (r, mgr', some i, evs) →
       tagOf (getDsc mgr.dscs i).nvmd_generic_flags = ty ∨
       tagOf (getDsc mgr.dscs i).nvmd_generic_flags = LF_TYPE_FREE) ∧
    (∀ mgr ty i (r : m_result_t) (mgr' : m_logmgr_s) io (evs : List LogEvent),
       (scan_free_loop mgr.dscs ty (none, none) mgr.free_logs_list).1 = some i →
       alloc_log_body mgr ty = some (r, mgr', io, evs) → io = some i) := by
  constructor
  · intro mgr ty r mgr' i evs h
    rcases alloc_log_body_cases mgr ty r mgr' (some i) evs h with
      ⟨_, _, hio, _⟩ | ⟨i', hio, _, _, _, _, _, _, _, htag, _, _⟩
    · exact absurd hio (by simp)
    · have hii : i' = i := by
        injection hio with hio
        exact hio.symm
      rw [hii] at htag
      exact htag
  · intro mgr ty i r mgr' io evs hfst h
    exact (alloc_fst_selected mgr ty i r mgr' io evs hfst h).1

theorem C7_recovered_reuse_requires_tag_match_w :
    tagOf (getDsc wPriorMgrReg.dscs 0).nvmd_generic_flags = 2 ∨
    tagOf (getDsc wPriorMgrReg.dscs 0).nvmd_generic_flags = LF_TYPE_FREE := by
  have h := C7_recovered_reuse_requires_tag_match
  exact h.1 wPriorMgrReg 2 M_R_SUCCESS wPriorMgrAlloc 0
    [LogEvent.initCb 0, LogEvent.pcmStoreTag 0 2, LogEvent.pcmBarrier] rfl

theorem register_pending_scan_total (ty : Nat) (ops : m_log_ops_s)
    (halloc : ops.alloc = true) :
    ∀ (l : List Nat) (dscs : List m_log_dsc_s),
      ∃ dscs' evs, register_pending_scan ty ops dscs l = some (dscs', evs) := by
  intro l
  induction l with
  | nil =>
    intro dscs
    exact ⟨dscs, [], rfl⟩
  | cons i rest ih =>
    intro dscs
    simp only [register_pending_scan]
    by_cases htag : tagOf (getDsc dscs i).nvmd_generic_flags = ty
    · rw [if_pos htag, if_pos halloc]
      rcases ih (setDsc dscs i (applyAllocCb { getDsc dscs i with ops := some ops })) with
        ⟨dscs', evs, heq⟩
      rw [heq]
      exact ⟨dscs', LogEvent.allocCb i :: evs, rfl⟩
    · rw [if_neg htag]
      exact ih dscs

theorem register_pending_scan_props (ty : Nat) (ops : m_log_ops_s) :
    ∀ (l : List Nat) (dscs dscs' : List m_log_dsc_s) (evs : List LogEvent),
      register_pending_scan ty ops dscs l = some (dscs', evs) →
      l.Nodup → (∀ j ∈ l, j < dscs.length) →
      dscs'.length = dscs.length ∧
      (∀ j, j ∉ l → getDsc dscs' j = getDsc dscs j) ∧
      (∀ j ∈ l, tagOf (getDsc dscs j).nvmd_generic_flags = ty →
         getDsc dscs' j = applyAllocCb { getDsc dscs j with ops := some ops } ∧
         LogEvent.allocCb j ∈ evs) ∧
      (∀ j ∈ l, tagOf (getDsc dscs j).nvmd_generic_flags ≠ ty →
         getDsc dscs' j = getDsc dscs j) ∧
      (∀ e ∈ evs, ∃ k, k ∈ l ∧ e = LogEvent.allocCb k) := by
  intro l
  induction l with
  | nil =>
    intro dscs dscs' evs h _ _
    simp only [register_pending_scan] at h
    injection h with h
    injection h with h1 h2
    subst h1
    subst h2
    exact ⟨rfl, fun j _ => rfl, by simp, by simp, by simp⟩
  | cons i rest ih =>
    intro dscs dscs' evs h hnodup hwf
    have hinotin : i ∉ rest := (List.nodup_cons.mp hnodup).1
    have hnodup' : rest.Nodup := (List.nodup_cons.mp hnodup).2
    have hilen : i < dscs.length := hwf i (List.mem_cons_self i rest)
    simp only [register_pending_scan] at h
    by_cases htag : tagOf (getDsc dscs i).nvmd_generic_flags = ty
    · rw [if_pos htag] at h
      by_cases halloc : ops.alloc = true
      · rw [if_pos halloc] at h
        cases hrec : register_pending_scan ty ops
            (setDsc dscs i (applyAllocCb { getDsc dscs i with ops := some ops })) rest with
        | none =>
          rw [hrec] at h
          exact absurd h (by simp)
        | some p =>
          rcases p with ⟨dscsR, evsR⟩
          rw [hrec] at h
          injection h with h
          injection h with h1 h2
          have hwf' : ∀ j ∈ rest, j < (setDsc dscs i
              (applyAllocCb { getDsc dscs i with ops := some ops })).length := by
            intro j hj
            rw [length_setDsc]
            exact hwf j (List.mem_cons_of_mem i hj)
          rcases ih _ dscsR evsR hrec hnodup' hwf' with ⟨hlen, hframe, hmatch, hnomatch, hevs⟩
          have hset : ∀ j, j ≠ i →
              getDsc (setDsc dscs i (applyAllocCb { getDsc dscs i with ops := some ops })) j
                = getDsc dscs j := by
            intro j hj
            exact getDsc_setDsc_ne _ _ _ _ (fun he => hj he.symm)
          subst h1
          refine ⟨by rw [hlen, length_setDsc], ?_, ?_, ?_, ?_⟩
          · intro j hj
            have hji : j ≠ i := fun he => hj (he ▸ List.mem_cons_self i rest)
            rw [hframe j (fun hm => hj (List.mem_cons_of_mem i hm)), hset j hji]
          · intro j hj htagj
            rcases List.mem_cons.mp hj with heq | hj'
            · subst heq
              rw [hframe j hinotin,
                  getDsc_setDsc_self _ _ _ hilen]
              exact ⟨rfl, by rw [← h2]; exact List.mem_cons_self _ _⟩
            · have hji : j ≠ i := fun he => hinotin (he ▸ hj')
              have htagj' : tagOf (getDsc (setDsc dscs i
                  (applyAllocCb { getDsc dscs i with ops := some ops })) j).nvmd_generic_flags
                  = ty := by rw [hset j hji]; exact htagj
              rcases hmatch j hj' htagj' with ⟨he1, he2⟩
              rw [hset j hji] at he1
              refine ⟨he1, ?_⟩
              rw [← h2]
              exact List.mem_cons_of_mem _ he2
          · intro j hj htagj
            rcases List.mem_cons.mp hj with heq | hj'
            · subst heq
              exact absurd htag htagj
            · have hji : j ≠ i := fun he => hinotin (he ▸ hj')
              have htagj' : tagOf (getDsc (setDsc dscs i
                  (applyAllocCb { getDsc dscs i with ops := some ops })) j).nvmd_generic_flags
                  ≠ ty := by rw [hset j hji]; exact htagj
              rw [hnomatch j hj' htagj', hset j hji]
          · intro e he
            rw [← h2] at he
            rcases List.mem_cons.mp he with heq | he'
            · exact ⟨i, List.mem_cons_self i rest, heq⟩
            · rcases hevs e he' with ⟨k, hk1, hk2⟩
              exact ⟨k, List.mem_cons_of_mem i hk1, hk2⟩
      · rw [if_neg halloc] at h
        exact absurd h (by simp)
    · rw [if_neg htag] at h
      have hwf' : ∀ j ∈ rest, j < dscs.length :=
        fun j hj => hwf j (List.mem_cons_of_mem i hj)
      rcases ih dscs dscs' evs h hnodup' hwf' with ⟨hlen, hframe, hmatch, hnomatch, hevs⟩
      refine ⟨hlen, ?_, ?_, ?_, ?_⟩
      · intro j hj
        exact hframe j (fun hm => hj (List.mem_cons_of_mem i hm))
      · intro j hj htagj
        rcases List.mem_cons.mp hj with heq | hj'
        · subst heq
          exact absurd htagj htag
        · exact hmatch j hj' htagj
      · intro j hj htagj
        rcases List.mem_cons.mp hj with heq | hj'
        · subst heq
          exact hframe j hinotin
        · exact hnomatch j hj' htagj
      · intro e he
        rcases hevs e he with ⟨k, hk1, hk2⟩
        exact ⟨k, List.mem_cons_of_mem i hk1, hk2⟩

/-- C6: register_logtype meets its contract — if the type is already present
the call succeeds as a pure no-op (the state, and hence the single registry
entry for the type, is unchanged, and no `ops.alloc` is re-invoked: the event
trace is empty); otherwise the entry is appended to the registry and every
pending descriptor whose persisted tag equals the type has its operations
table set to the registered ops and `ops.alloc` invoked on it immediately,
while differently-tagged pending descriptors are untouched. -/
theorem C6_register_contract :
    (∀ mgr ty ops, (mgr.known_logtypes_list.any (fun e => e.type == ty)) = true →
       register_logtype mgr ty ops = some (M_R_SUCCESS, mgr, [])) ∧
    (∀ mgr ty ops, (mgr.known_logtypes_list.any (fun e => e.type == ty)) = false →
       ops.alloc = true → mgr.pending_logs_list.Nodup →
       (∀ j ∈ mgr.pending_logs_list, j < mgr.dscs.length) →
       ∃ dscs' evs,
         register_logtype mgr ty ops = some (M_R_SUCCESS,
           { mgr with known_logtypes_list := mgr.known_logtypes_list ++
                        [({ type := ty, ops := ops } : m_logtype_entry_s)],
                      dscs := dscs' }, evs) ∧
         (∀ j ∈ mgr.pending_logs_list,
            tagOf (getDsc mgr.dscs j).nvmd_generic_flags = ty →
              getDsc dscs' j = applyAllocCb { getDsc mgr.dscs j with ops := some ops } ∧
              LogEvent.allocCb j ∈ evs) ∧
         (∀ j ∈ mgr.pending_logs_list,
            tagOf (getDsc mgr.dscs j).nvmd_generic_flags ≠ ty →
              getDsc dscs' j = getDsc mgr.dscs j) ∧
         (∀ e ∈ evs, ∃ k, k ∈ mgr.pending_logs_list ∧ e = LogEvent.allocCb k)) := by
  constructor
  · intro mgr ty ops h
    unfold register_logtype
    rw [if_pos h]
  · intro mgr ty ops habs halloc hnodup hwf
    rcases register_pending_scan_total ty ops halloc mgr.pending_logs_list mgr.dscs with
      ⟨dscs', evs, hscan⟩
    rcases register_pending_scan_props ty ops mgr.pending_logs_list mgr.dscs dscs' evs
      hscan hnodup hwf with ⟨_, _, hmatch, hnomatch, hevs⟩
    refine ⟨dscs', evs, ?_, hmatch, hnomatch, hevs⟩
    unfold register_logtype
    rw [if_neg (by rw [habs]; simp)]
    dsimp only
    rw [hscan]

theorem C6_register_contract_w :
    register_logtype wAllocMgr 1 opsFull = some (M_R_SUCCESS, wAllocMgr, []) := by
  have h := C6_register_contract
  exact h.1 wAllocMgr 1 opsFull (by decide)

theorem register_pending_scan_length (ty : Nat) (ops : m_log_ops_s) :
    ∀ (l : List Nat) (dscs dscs' : List m_log_dsc_s) (evs : List LogEvent),
      register_pending_scan ty ops dscs l = some (dscs', evs) →
      dscs'.length = dscs.length := by
  intro l
  induction l with
  | nil =>
    intro dscs dscs' evs h
    simp only [register_pending_scan] at h
    injection h with h
    injection h with h1 _
    rw [← h1]
  | cons i rest ih =>
    intro dscs dscs' evs h
    simp only [register_pending_scan] at h
    by_cases htag : tagOf (getDsc dscs i).nvmd_generic_flags = ty
    · rw [if_pos htag] at h
      by_cases halloc : ops.alloc = true
      · rw [if_pos halloc] at h
        cases hrec : register_pending_scan ty ops
            (setDsc dscs i (applyAllocCb { getDsc dscs i with ops := some ops })) rest with
        | none =>
          rw [hrec] at h
          exact absurd h (by simp)
        | some p =>
          rcases p with ⟨dscsR, evsR⟩
          rw [hrec] at h
          injection h with h
          injection h with h1 _
          rw [← h1]
          rw [ih _ dscsR evsR hrec, length_setDsc]
      · rw [if_neg halloc] at h
        exact absurd h (by simp)
    · rw [if_neg htag] at h
      exact ih dscs dscs' evs h

theorem register_logtype_lists (mgr : m_logmgr_s) (ty : Nat) (ops : m_log_ops_s)
    (r : m_result_t) (mgr' : m_logmgr_s) (evs : List LogEvent)
    (h : register_logtype mgr ty ops = some (r, mgr', evs)) :
    mgr'.free_logs_list = mgr.free_logs_list ∧
    mgr'.active_logs_list = mgr.active_logs_list ∧
    mgr'.pending_logs_list = mgr.pending_logs_list ∧
    mgr'.dscs.length = mgr.dscs.length := by
  unfold register_logtype at h
  by_cases hany : (mgr.known_logtypes_list.any (fun e => e.type == ty)) = true
  · rw [if_pos hany] at h
    injection h with h
    injection h with _ h
    injection h with h2 _
    rw [← h2]
    exact ⟨rfl, rfl, rfl, rfl⟩
  · rw [if_neg hany] at h
    dsimp only at h
    cases hscan : register_pending_scan ty ops mgr.dscs mgr.pending_logs_list with
    | none =>
      rw [hscan] at h
      exact absurd h (by simp)
    | some p =>
      rcases p with ⟨dscs', evs'⟩
      rw [hscan] at h
      injection h with h
      injection h with _ h
      injection h with h2 _
      rw [← h2]
      exact ⟨rfl, rfl, rfl, register_pending_scan_length ty ops _ _ _ _ hscan⟩

theorem create_log_pool_loop_props :
    ∀ (pool : List SlotNV) (mgr : m_logmgr_s) (i : Nat),
      (create_log_pool_loop mgr i pool).dscs = mgr.dscs ++ pool.map mkDsc ∧
      (create_log_pool_loop mgr i pool).known_logtypes_list = mgr.known_logtypes_list ∧
      (create_log_pool_loop mgr i pool).active_logs_list = mgr.active_logs_list ∧
      ((create_log_pool_loop mgr i pool).free_logs_list ++
       (create_log_pool_loop mgr i pool).pending_logs_list).Perm
        ((mgr.free_logs_list ++ mgr.pending_logs_list) ++ List.range' i pool.length) := by
  intro pool
  induction pool with
  | nil =>
    intro mgr i
    exact ⟨by simp [create_log_pool_loop], rfl, rfl, by simp [create_log_pool_loop]⟩
  | cons s rest ih =>
    intro mgr i
    simp only [create_log_pool_loop]
    by_cases htag : tagOf s.generic_flags = LF_TYPE_FREE
    · rw [if_pos htag]
      rcases ih { mgr with dscs := mgr.dscs ++ [mkDsc s],
                           free_logs_list := mgr.free_logs_list ++ [i] } (i + 1) with
        ⟨h1, h2, h3, h4⟩
      refine ⟨by rw [h1]; simp, h2, h3, ?_⟩
      refine h4.trans ?_
      dsimp only
      rw [← Multiset.coe_eq_coe]
      simp only [← Multiset.coe_add, ← Multiset.cons_coe, ← Multiset.singleton_add,
        List.range'_concat, List.range']
      abel
    · rw [if_neg htag]
      rcases ih { mgr with dscs := mgr.dscs ++ [mkDsc s],
                           pending_logs_list := mgr.pending_logs_list ++ [i] } (i + 1) with
        ⟨h1, h2, h3, h4⟩
      refine ⟨by rw [h1]; simp, h2, h3, ?_⟩
      refine h4.trans ?_
      dsimp only
      rw [← Multiset.coe_eq_coe]
      simp only [← Multiset.coe_add, ← Multiset.cons_coe, ← Multiset.singleton_add,
        List.range'_concat, List.range']
      abel

theorem hasRecInit_mkDsc_list :
    ∀ (l : List SlotNV) (i : Nat), hasRecInit (getDsc (l.map mkDsc) i) = false := by
  intro l
  induction l with
  | nil =>
    intro i
    rw [getDsc_out_of_range _ _ (by simp)]
    rfl
  | cons s rest ih =>
    intro i
    cases i with
    | zero => rfl
    | succ n =>
      have : getDsc ((s :: rest).map mkDsc) (n + 1) = getDsc (rest.map mkDsc) n := by
        simp [getDsc, List.getD]
      rw [this]
      exact ih n

theorem collect_phase_no_qual (dscs : List m_log_dsc_s) :
    ∀ (l : List Nat), (∀ i, hasRecInit (getDsc dscs i) = false) →
      collect_phase dscs l = (l, [], dscs, []) := by
  intro l
  induction l with
  | nil => intro _; rfl
  | cons i rest ih =>
    intro h
    simp only [collect_phase]
    rw [if_neg (by rw [h i]; simp)]
    rw [ih h]

theorem do_recovery_no_qual (mgr : m_logmgr_s)
    (h : ∀ i, hasRecInit (getDsc mgr.dscs i) = false) :
    do_recovery mgr = some (M_R_SUCCESS, mgr, []) := by
  unfold do_recovery
  dsimp only
  rw [collect_phase_no_qual mgr.dscs mgr.pending_logs_list h]
  dsimp only
  rw [recovery_loop_nil]
  rfl

theorem logmgr_init_eq (pool : List SlotNV) :
    logmgr_init pool = some (create_log_pool emptyLogMgr pool) := by
  have hdscs : (create_log_pool emptyLogMgr pool).dscs = (pool.take LOG_NUM).map mkDsc := by
    have h := (create_log_pool_loop_props (pool.take LOG_NUM) emptyLogMgr 0).1
    unfold create_log_pool
    rw [h]
    rfl
  have hall : ∀ i, hasRecInit (getDsc (create_log_pool emptyLogMgr pool).dscs i) = false := by
    intro i
    rw [hdscs]
    exact hasRecInit_mkDsc_list _ i
  unfold logmgr_init
  dsimp only
  have hstat : register_static_logtypes (create_log_pool emptyLogMgr pool) =
      some (create_log_pool emptyLogMgr pool) := rfl
  rw [hstat]
  dsimp only
  rw [do_recovery_no_qual _ hall]

theorem register_logtype_total (mgr : m_logmgr_s) (ty : Nat) (ops : m_log_ops_s)
    (halloc : ops.alloc = true) :
    (register_logtype mgr ty ops).isSome := by
  unfold register_logtype
  by_cases hany : (mgr.known_logtypes_list.any (fun e => e.type == ty)) = true
  · rw [if_pos hany]
    rfl
  · rw [if_neg hany]
    dsimp only
    rcases register_pending_scan_total ty ops halloc mgr.pending_logs_list mgr.dscs with
      ⟨dscs', evs, h⟩
    rw [h]
    rfl

/-- C9 counterexample: invoked as the process's first log-manager operation
(with the `logmgr` pointer still NULL), m_logmgr_do_recovery and
m_logmgr_alloc_log do not construct the manager first — they operate on the
absent manager (the NULL dereference, modelled as `none`), even though
recovery on a freshly constructed manager would succeed; the claimed
construct-then-operate behaviour holds only for register_logtype. -/
theorem C9_counterexample :
    m_logmgr_do_recovery none = none ∧
    m_logmgr_alloc_log none 1 = none ∧
    do_recovery emptyLogMgr = some (M_R_SUCCESS, emptyLogMgr, []) :=
  ⟨rfl, rfl, rfl⟩

/-- C9 (amended): the manager singleton is created lazily on first use only by
register_log_type — invoked with the manager absent it first constructs and
initializes the manager from the pool and then registers on it, never
operating on an absent manager; run_recovery and allocate_log perform no such
check and dereference the absent manager when invoked first. -/
theorem C9_lazy_init_only_register :
    (∀ (pool : List SlotNV) (ty : Nat) (ops : m_log_ops_s), ops.alloc = true →
       m_logmgr_register_logtype none pool ty ops =
         register_logtype (create_log_pool emptyLogMgr pool) ty ops ∧
       logmgr_init pool = some (create_log_pool emptyLogMgr pool) ∧
       (m_logmgr_register_logtype none pool ty ops).isSome) ∧
    m_logmgr_do_recovery none = none ∧
    (∀ ty, m_logmgr_alloc_log none ty = none) := by
  refine ⟨?_, rfl, fun ty => rfl⟩
  intro pool ty ops halloc
  have hwrap : m_logmgr_register_logtype none pool ty ops =
      register_logtype (create_log_pool emptyLogMgr pool) ty ops := by
    unfold m_logmgr_register_logtype
    rw [logmgr_init_eq]
  refine ⟨hwrap, logmgr_init_eq pool, ?_⟩
  rw [hwrap]
  exact register_logtype_total _ ty ops halloc

theorem C9_lazy_init_only_register_w :
    m_logmgr_register_logtype none [] 1 opsFull =
      register_logtype (create_log_pool emptyLogMgr []) 1 opsFull ∧
    logmgr_init [] = some (create_log_pool emptyLogMgr []) := by
  have h := C9_lazy_init_only_register
  rcases h.1 [] 1 opsFull rfl with ⟨h1, h2, _⟩
  exact ⟨h1, h2⟩

theorem slotPartition_init (pool : List SlotNV) (mgr : m_logmgr_s)
    (h : logmgr_init pool = some mgr) : slotPartition mgr [] := by
  rw [logmgr_init_eq] at h
  injection h with h
  subst h
  rcases create_log_pool_loop_props (pool.take LOG_NUM) emptyLogMgr 0 with ⟨h1, _, h3, h4⟩
  unfold slotPartition
  unfold create_log_pool
  rw [h1, h3]
  have hlen : (emptyLogMgr.dscs ++ (pool.take LOG_NUM).map mkDsc).length =
      (pool.take LOG_NUM).length := by simp [emptyLogMgr]
  rw [hlen]
  have hrange : List.range (pool.take LOG_NUM).length =
      List.range' 0 (pool.take LOG_NUM).length := List.range_eq_range' _
  rw [hrange]
  refine List.Perm.trans ?_ h4
  rw [← Multiset.coe_eq_coe]
  simp only [← Multiset.coe_add, emptyLogMgr]
  abel

theorem slotPartition_register (mgr : m_logmgr_s) (ty : Nat) (ops : m_log_ops_s)
    (r : m_result_t) (mgr' : m_logmgr_s) (evs : List LogEvent)
    (h : register_logtype mgr ty ops = some (r, mgr', evs))
    (hp : slotPartition mgr []) : slotPartition mgr' [] := by
  rcases register_logtype_lists mgr ty ops r mgr' evs h with ⟨h1, h2, h3, h4⟩
  unfold slotPartition at hp ⊢
  rw [h1, h2, h3, h4]
  exact hp

theorem slotPartition_recovery (mgr : m_logmgr_s) (r : m_result_t) (mgr' : m_logmgr_s)
    (evs : List LogEvent) (h : do_recovery mgr = some (r, mgr', evs))
    (hp : slotPartition mgr []) : slotPartition mgr' [] := by
  rcases do_recovery_eq mgr r mgr' evs h with ⟨dscs2, evs2, hloop, _, hmgr, _⟩
  rcases recovery_loop_props _ _ _ _ hloop with ⟨hlen2, _⟩
  rcases collect_phase_props mgr.pending_logs_list mgr.dscs with ⟨hlen1, _, hperm, _⟩
  subst hmgr
  unfold slotPartition at hp ⊢
  dsimp only
  rw [hlen2, hlen1]
  refine List.Perm.trans ?_ hp
  rw [← Multiset.coe_eq_coe] at hperm ⊢
  simp only [← Multiset.coe_add] at hperm ⊢
  rw [← hperm]
  abel

theorem slotPartition_alloc (mgr : m_logmgr_s) (ty : Nat) (r : m_result_t)
    (mgr' : m_logmgr_s) (io : Option Nat) (evs : List LogEvent)
    (h : alloc_log_body mgr ty = some (r, mgr', io, evs))
    (hp : slotPartition mgr []) : slotPartition mgr' [] := by
  rcases alloc_log_body_cases mgr ty r mgr' io evs h with
    ⟨_, hmgr, _, _⟩ | ⟨i, _, _, hmem, hfree, hact, hpend, _, hlen, _, _, _⟩
  · rw [hmgr]
    exact hp
  · unfold slotPartition at hp ⊢
    rw [hfree, hact, hpend, hlen]
    have hpc : mgr.free_logs_list.Perm (i :: mgr.free_logs_list.erase i) :=
      List.perm_cons_erase hmem
    refine List.Perm.trans ?_ hp
    rw [← Multiset.coe_eq_coe] at hpc ⊢
    simp only [← Multiset.coe_add, ← Multiset.cons_coe, ← Multiset.singleton_add] at hpc ⊢
    rw [hpc]
    abel

/-- C2: in every manager state reachable by bring-up, registration, recovery
and allocation, the free, active and pending lists (the recovery-transient
list being empty between operations) partition the slot indices: together they
are a permutation of all indices, each slot is on exactly one list (coverage
and pairwise disjointness), and at the instant inside do_recovery after the
collection phase the four lists — with the transient recovery list now
populated — still partition the slot set. -/
theorem C2_slot_partition_invariant (mgr : m_logmgr_s) (h : MgrReachable mgr) :
    slotPartition mgr [] ∧
    (∀ i, i < mgr.dscs.length ↔
       (i ∈ mgr.free_logs_list ∨ i ∈ mgr.active_logs_list ∨ i ∈ mgr.pending_logs_list)) ∧
    mgr.free_logs_list.Disjoint mgr.active_logs_list ∧
    mgr.free_logs_list.Disjoint mgr.pending_logs_list ∧
    mgr.active_logs_list.Disjoint mgr.pending_logs_list ∧
    slotPartition { mgr with
        pending_logs_list := (collect_phase mgr.dscs mgr.pending_logs_list).1,
        dscs := (collect_phase mgr.dscs mgr.pending_logs_list).2.2.1 }
      (collect_phase mgr.dscs mgr.pending_logs_list).2.1 := by
  have hp : slotPartition mgr [] := by
    induction h with
    | bringup pool mgr h => exact slotPartition_init pool mgr h
    | register mgr ty ops r mgr' evs _ hstep ih =>
      exact slotPartition_register mgr ty ops r mgr' evs hstep ih
    | recovery mgr r mgr' evs _ hstep ih =>
      exact slotPartition_recovery mgr r mgr' evs hstep ih
    | alloc mgr ty r mgr' io evs _ hstep ih =>
      exact slotPartition_alloc mgr ty r mgr' io evs hstep ih
  have hnd : (mgr.free_logs_list ++ mgr.active_logs_list ++ mgr.pending_logs_list).Nodup := by
    have := (List.Perm.nodup_iff hp).mpr (List.nodup_range _)
    simpa using this
  have hnd1 := hnd
  rw [List.nodup_append] at hnd1
  rcases hnd1 with ⟨hndFA, hndP, hdisjFAP⟩
  rw [List.nodup_append] at hndFA
  rcases hndFA with ⟨_, _, hdisjFA⟩
  refine ⟨hp, ?_, hdisjFA, ?_, ?_, ?_⟩
  · intro i
    have hmem := List.Perm.mem_iff (a := i) hp
    constructor
    · intro hi
      have : i ∈ mgr.free_logs_list ++ mgr.active_logs_list ++ mgr.pending_logs_list
          ++ ([] : List Nat) := hmem.mpr (List.mem_range.mpr hi)
      simpa using this
    · intro hi
      refine List.mem_range.mp (hmem.mp ?_)
      simpa using hi
  · intro a ha hap
    exact hdisjFAP (List.mem_append_left _ ha) hap
  · intro a ha hap
    exact hdisjFAP (List.mem_append_right _ ha) hap
  · rcases collect_phase_props mgr.pending_logs_list mgr.dscs with ⟨hlen1, _, hperm, _⟩
    unfold slotPartition at hp ⊢
    dsimp only
    rw [hlen1]
    refine List.Perm.trans ?_ hp
    rw [← Multiset.coe_eq_coe] at hperm ⊢
    simp only [← Multiset.coe_add] at hperm ⊢
    rw [← hperm]
    abel

theorem C2_slot_partition_invariant_w :
    slotPartition wInitMgr [] ∧
    wInitMgr.free_logs_list.Disjoint wInitMgr.pending_logs_list := by
  have h := C2_slot_partition_invariant wInitMgr (MgrReachable.bringup wPool wInitMgr rfl)
  exact ⟨h.1, h.2.2.2.1⟩
